import Mathlib

/-!
Verification development for the Mussel VM (mussel-lox/mussel-vm), a
stack-based bytecode virtual machine written in Rust.  The Rust sources are
shallowly embedded below: pure functions become Lean functions, the mutable
interpreter state becomes explicit state passing, fallible operations return
an explicit error value, and the garbage-collected heap becomes an
insertion-ordered allocation list indexed by natural-number references.

IEEE-754 doubles are modelled by an exact value type `F64`: a finite value
carries an exact fraction, and negative zero, the two infinities and a NaN
are separate constructors.  Arithmetic is exact on finite values (no
rounding); every fact proved below about numbers only exercises cases in
which IEEE-754 double arithmetic is itself exact (signed zeros, infinities,
NaN propagation, and comparisons of exactly represented values), so the
absence of rounding is immaterial to the theorems.
-/

namespace MusselVM

/-- An exact fraction: numerator over a (by construction positive)
denominator.  Fractions are not normalised; value comparisons use
cross-multiplication.  Every fraction built below has a positive
denominator. -/
structure Frac where
  num : Int
  den : Nat
deriving DecidableEq

/-- Build a fraction from an integer. -/
def Frac.ofInt (n : Int) : Frac := ⟨n, 1⟩

/-- The fraction denotes the value zero. -/
def Frac.isZero (a : Frac) : Bool := a.num == 0

/-- The fraction denotes a strictly negative value. -/
def Frac.isNeg (a : Frac) : Bool := a.num < 0

/-- Exact sum. -/
def Frac.add (a b : Frac) : Frac :=
  ⟨a.num * (b.den : Int) + b.num * (a.den : Int), a.den * b.den⟩

/-- Exact difference. -/
def Frac.sub (a b : Frac) : Frac :=
  ⟨a.num * (b.den : Int) - b.num * (a.den : Int), a.den * b.den⟩

/-- Exact product. -/
def Frac.mul (a b : Frac) : Frac :=
  ⟨a.num * b.num, a.den * b.den⟩

/-- Exact quotient; only used with a nonzero divisor.  The sign is moved to
the numerator so the denominator stays positive. -/
def Frac.div (a b : Frac) : Frac :=
  if b.num < 0 then ⟨-(a.num * (b.den : Int)), a.den * (-b.num).toNat⟩
  else ⟨a.num * (b.den : Int), a.den * b.num.toNat⟩

/-- Exact strict comparison by cross-multiplication. -/
def Frac.lt (a b : Frac) : Bool :=
  decide (a.num * (b.den : Int) < b.num * (a.den : Int))

/-- Exact absolute value. -/
def Frac.abs (a : Frac) : Frac := ⟨(a.num.natAbs : Int), a.den⟩

/-- Model of the Rust `f64` type.  `finite q` is an ordinary (positive-zero
included) double with exact value `q`; `negZero` is `-0.0`; `inf neg` is an
infinity with sign bit `neg`; `nan` is a NaN.  Structural equality of this
type models bit-pattern equality of doubles (`f64::to_bits`). -/
inductive F64 where
  | finite (q : Frac)
  | negZero
  | inf (neg : Bool)
  | nan
deriving DecidableEq

/-- Numeric payload of a finite or signed-zero value (zero elsewhere). -/
def F64.val : F64 → Frac
  | .finite q => q
  | _ => Frac.ofInt 0

/-- The IEEE sign bit. -/
def F64.signBit : F64 → Bool
  | .finite q => q.isNeg
  | .negZero => true
  | .inf s => s
  | .nan => false

/-- The value is a zero (either sign). -/
def F64.isZero : F64 → Bool
  | .finite q => q.isZero
  | .negZero => true
  | _ => false

/-- The value is an infinity or a NaN. -/
def F64.isInfOrNan : F64 → Bool
  | .inf _ => true
  | .nan => true
  | _ => false

/-- The value is neither an infinity nor a NaN. -/
def F64.isFiniteLike : F64 → Bool
  | .finite _ => true
  | .negZero => true
  | _ => false

/-- IEEE-754 addition (exact on finite values).  An exactly zero sum is
`+0.0` unless both addends are `-0.0`. -/
def F64.fadd : F64 → F64 → F64
  | .nan, _ => .nan
  | _, .nan => .nan
  | .inf s, .inf t => if s = t then .inf s else .nan
  | .inf s, _ => .inf s
  | _, .inf t => .inf t
  | a, b =>
    let d := Frac.add a.val b.val
    if d.isZero then
      if a = .negZero ∧ b = .negZero then .negZero else .finite (Frac.ofInt 0)
    else .finite d

/-- IEEE-754 subtraction (exact on finite values).  An exactly zero
difference is `+0.0` unless it is `(-0.0) - (+0.0)`. -/
def F64.fsub : F64 → F64 → F64
  | .nan, _ => .nan
  | _, .nan => .nan
  | .inf s, .inf t => if s = t then .nan else .inf s
  | .inf s, _ => .inf s
  | _, .inf t => .inf (!t)
  | a, b =>
    let d := Frac.sub a.val b.val
    if d.isZero then
      if a = .negZero ∧ b ≠ .negZero then .negZero else .finite (Frac.ofInt 0)
    else .finite d

/-- IEEE-754 multiplication (exact on finite values). -/
def F64.fmul : F64 → F64 → F64
  | .nan, _ => .nan
  | _, .nan => .nan
  | .inf s, .inf t => .inf (xor s t)
  | .inf s, b => if b.isZero then .nan else .inf (xor s b.signBit)
  | a, .inf t => if a.isZero then .nan else .inf (xor a.signBit t)
  | a, b =>
    let d := Frac.mul a.val b.val
    if d.isZero then
      if xor a.signBit b.signBit then .negZero else .finite (Frac.ofInt 0)
    else .finite d

/-- IEEE-754 division (exact on finite values): a nonzero finite value
divided by a zero is a signed infinity, zero divided by zero is NaN. -/
def F64.fdiv : F64 → F64 → F64
  | .nan, _ => .nan
  | _, .nan => .nan
  | .inf _, .inf _ => .nan
  | .inf s, b => .inf (xor s b.signBit)
  | a, .inf t => if xor a.signBit t then .negZero else .finite (Frac.ofInt 0)
  | a, b =>
    if b.isZero then
      if a.isZero then .nan else .inf (xor a.signBit b.signBit)
    else
      let d := Frac.div a.val b.val
      if d.isZero then
        if xor a.signBit b.signBit then .negZero else .finite (Frac.ofInt 0)
      else .finite d

/-- IEEE-754 negation (flips the sign bit). -/
def F64.fneg : F64 → F64
  | .nan => .nan
  | .inf s => .inf (!s)
  | .negZero => .finite (Frac.ofInt 0)
  | .finite q => if q.isZero then .negZero else .finite (Frac.sub (Frac.ofInt 0) q)

/-- IEEE-754 absolute value (clears the sign bit). -/
def F64.fabs : F64 → F64
  | .nan => .nan
  | .inf _ => .inf false
  | .negZero => .finite (Frac.ofInt 0)
  | .finite q => .finite q.abs

/-- IEEE-754 strict less-than; false whenever either operand is NaN, and
`-0.0 < +0.0` is false. -/
def F64.flt : F64 → F64 → Bool
  | .nan, _ => false
  | _, .nan => false
  | .inf true, .inf true => false
  | .inf true, _ => true
  | _, .inf true => false
  | .inf false, _ => false
  | _, .inf false => true
  | a, b => Frac.lt a.val b.val

/-- IEEE-754 strict greater-than. -/
def F64.fgt (a b : F64) : Bool := F64.flt b a

/-- The machine epsilon threshold used by value equality
(`f64::EPSILON`, that is two to the power minus fifty-two). -/
def EPSILON : F64 := .finite ⟨1, 2 ^ 52⟩

/-- Bytecode constants (`bytecode.rs`): numbers and strings only. -/
inductive Constant where
  | number (n : F64)
  | string (s : String)
deriving DecidableEq

/-- The overloaded equality on constants (`impl PartialEq for Constant`):
numbers are equal when their absolute difference is below machine epsilon,
strings by content, different tags never. -/
def constantEq : Constant → Constant → Bool
  | .number n1, .number n2 => F64.flt (F64.fabs (F64.fsub n1 n2)) EPSILON
  | .string s1, .string s2 => s1 == s2
  | _, _ => false

/-- Lookup in the writer constant cache.  This models
`HashMap::<Constant, ConstantIndex>::get`: the probed key is found through
its hash — `Constant` hashes by the bit pattern of the number or by the
string content, modelled by structural equality — and is then confirmed
with the overloaded equality, so an entry is returned only when both
agree. -/
def cacheGet : List (Constant × Nat) → Constant → Option Nat
  | [], _ => none
  | (k, i) :: rest, c => if k = c ∧ constantEq k c then some i else cacheGet rest c

/-- The bytecode writer state relevant to constant definition
(`bytecode/writer.rs`): the constant pool being built and the constant
cache. -/
structure BytecodeWriter where
  constants : List Constant
  constantCache : List (Constant × Nat)
deriving DecidableEq

/-- A fresh writer over an empty bytecode. -/
def BytecodeWriter.new : BytecodeWriter := ⟨[], []⟩

/-- `BytecodeWriter::define`: return the cached index when the constant was
already defined, otherwise append it to the pool (failing when the pool
would exceed the capacity of a sixteen-bit index) and cache its index. -/
def BytecodeWriter.define (w : BytecodeWriter) (c : Constant) :
    Except String Nat × BytecodeWriter :=
  match cacheGet w.constantCache c with
  | some index => (.ok index, w)
  | none =>
    if w.constants.length > 65535 then (.error "too many constants", w)
    else
      (.ok w.constants.length,
        ⟨w.constants ++ [c], w.constantCache ++ [(c, w.constants.length)]⟩)

/-- `BytecodeReader::load`: clone the pool entry, failing when the index is
out of bounds. -/
def loadConstant (constants : List Constant) (index : Nat) : Except String Constant :=
  match constants.get? index with
  | some c => .ok c
  | none => .error "constant index out of bounds"

/-- The fixed-capacity evaluation stack (`stack.rs`).  The Rust struct
stores the elements in an inline array with a `top` counter; the list below
holds exactly the initialised prefix, bottom of the stack first. -/
structure Stack (α : Type) (N : Nat) where
  elements : List α
deriving DecidableEq

/-- An empty stack. -/
def Stack.new {α : Type} {N : Nat} : Stack α N := ⟨[]⟩

/-- `Stack::len`. -/
def Stack.len {α : Type} {N : Nat} (s : Stack α N) : Nat := s.elements.length

/-- `Stack::push`: faults with a stack overflow when the stack is full. -/
def Stack.push {α : Type} {N : Nat} (s : Stack α N) (v : α) :
    Except String (Stack α N) :=
  if s.elements.length ≥ N then .error "stack overflow"
  else .ok ⟨s.elements ++ [v]⟩

/-- `Stack::pop`: faults with a stack underflow on an empty stack. -/
def Stack.pop {α : Type} {N : Nat} (s : Stack α N) :
    Except String (α × Stack α N) :=
  match s.elements.getLast? with
  | none => .error "stack underflow"
  | some v => .ok (v, ⟨s.elements.dropLast⟩)

/-- `Stack::peek`: a reference to the top n-th element; faults when the
stack holds at most n elements. -/
def Stack.peek {α : Type} {N : Nat} (s : Stack α N) (n : Nat) : Except String α :=
  if h : s.elements.length ≤ n then .error "stack underflow, cannot peek"
  else .ok (s.elements.get ⟨s.elements.length - n - 1, by omega⟩)

/-- `Stack::top`: a special form of peek. -/
def Stack.top {α : Type} {N : Nat} (s : Stack α N) : Except String α := s.peek 0

/-- Indexing (`Index for Stack`): absolute position from the bottom; faults
when the index is at or beyond the stack top. -/
def Stack.index {α : Type} {N : Nat} (s : Stack α N) (i : Nat) : Except String α :=
  match s.elements.get? i with
  | some v => .ok v
  | none => .error "index out of bounds"

/-- Mutable indexing (`IndexMut for Stack`) used to overwrite one slot. -/
def Stack.setAt {α : Type} {N : Nat} (s : Stack α N) (i : Nat) (v : α) :
    Except String (Stack α N) :=
  if i < s.elements.length then .ok ⟨s.elements.set i v⟩
  else .error "index out of bounds"

/-- `Stack::clear`. -/
def Stack.clear {α : Type} {N : Nat} (_ : Stack α N) : Stack α N := ⟨[]⟩

/-- Runtime values (`value.rs`, with the closure and upvalue reference
variants used by `vm.rs`).  Reference-carrying variants hold a thin pointer
into the garbage collector, modelled as the index of the allocation. -/
inductive Value where
  | number (n : F64)
  | boolean (b : Bool)
  | nil
  | string (r : Nat)
  | functionPointer (r : Nat)
  | closure (r : Nat)
  | upvalue (r : Nat)
deriving DecidableEq

/-- `Value::as_boolean`: `Nil` and `false` are falsey, everything else is
truthy. -/
def Value.asBoolean : Value → Bool
  | .boolean b => b
  | .nil => false
  | _ => true

/-- The value carries the number tag. -/
def Value.isNumber : Value → Bool
  | .number _ => true
  | _ => false

/-- The discriminant of the value tag. -/
def Value.tag : Value → Nat
  | .number _ => 0
  | .boolean _ => 1
  | .nil => 2
  | .string _ => 3
  | .functionPointer _ => 4
  | .closure _ => 5
  | .upvalue _ => 6

/-- Heap allocations (`gc/types.rs` together with `gc/reference.rs`): each
allocation is a string, a function pointer, a closure, or an upvalue cell
holding a single value. -/
inductive Obj where
  | string (s : String)
  | functionPointer (position : Nat) (arity : Nat)
  | closure (position : Nat) (arity : Nat) (upvalues : List Nat)
  | upvalue (v : Value)
deriving DecidableEq

/-- The garbage collector (`gc.rs`): the insertion-ordered list of all
allocations — a reference is an index into it — and the string interning
pool mapping string contents to the index of their unique allocation. -/
structure GarbageCollector where
  allocations : List Obj
  stringPool : List (String × Nat)
deriving DecidableEq

/-- A fresh, empty collector. -/
def GarbageCollector.new : GarbageCollector := ⟨[], []⟩

/-- Lookup in the string pool (models `HashMap::<String, usize>::get`; the
pool never holds two entries with the same key). -/
def poolLookup : List (String × Nat) → String → Option Nat
  | [], _ => none
  | (k, i) :: rest, s => if k = s then some i else poolLookup rest s

/-- The string contents of the allocation a reference points at, when it is
a string allocation. -/
def GarbageCollector.stringAt (gc : GarbageCollector) (r : Nat) : Option String :=
  match gc.allocations.get? r with
  | some (.string s) => some s
  | _ => none

/-- The position and arity of the allocation a reference points at, when it
is a function pointer allocation. -/
def GarbageCollector.functionPointerAt (gc : GarbageCollector) (r : Nat) :
    Option (Nat × Nat) :=
  match gc.allocations.get? r with
  | some (.functionPointer p a) => some (p, a)
  | _ => none

/-- `Allocate<String>::allocate`: interned — an existing equal string is
returned from the pool, otherwise a fresh allocation is appended and
recorded in the pool. -/
def GarbageCollector.allocateString (gc : GarbageCollector) (s : String) :
    Nat × GarbageCollector :=
  match poolLookup gc.stringPool s with
  | some i => (i, gc)
  | none =>
    (gc.allocations.length,
      ⟨gc.allocations ++ [.string s],
        gc.stringPool ++ [(s, gc.allocations.length)]⟩)

/-- `Allocate` for the non-interned kinds (function pointers, closures and
upvalue cells): unconditionally append a fresh allocation. -/
def GarbageCollector.allocateObj (gc : GarbageCollector) (o : Obj) :
    Nat × GarbageCollector :=
  (gc.allocations.length, ⟨gc.allocations ++ [o], gc.stringPool⟩)

/-- Write through an upvalue reference (the Rust `**u = value` through a
typed `Reference<Value>`; the reference always designates an upvalue
allocation, which the model checks explicitly). -/
def GarbageCollector.writeCell (gc : GarbageCollector) (r : Nat) (v : Value) :
    Except String GarbageCollector :=
  match gc.allocations.get? r with
  | some (.upvalue _) => .ok ⟨gc.allocations.set r (.upvalue v), gc.stringPool⟩
  | _ => .error "invalid upvalue reference"

/-- Read through an upvalue reference. -/
def GarbageCollector.readCell (gc : GarbageCollector) (r : Nat) :
    Except String Value :=
  match gc.allocations.get? r with
  | some (.upvalue v) => .ok v
  | _ => .error "invalid upvalue reference"

/-- Read through a closure reference. -/
def GarbageCollector.closureAt (gc : GarbageCollector) (r : Nat) :
    Except String (Nat × Nat × List Nat) :=
  match gc.allocations.get? r with
  | some (.closure p a us) => .ok (p, a, us)
  | _ => .error "invalid closure reference"

/-- Read through a function pointer reference. -/
def GarbageCollector.fpAt (gc : GarbageCollector) (r : Nat) :
    Except String (Nat × Nat) :=
  match gc.allocations.get? r with
  | some (.functionPointer p a) => .ok (p, a)
  | _ => .error "invalid function reference"

/-- Append an upvalue reference to the upvalue list of a closure
allocation (the Rust `closure.upvalues.push(upvalue)` through a typed
`Reference<Closure>`). -/
def GarbageCollector.pushUpvalue (gc : GarbageCollector) (r : Nat) (u : Nat) :
    Except String GarbageCollector :=
  match gc.allocations.get? r with
  | some (.closure p a us) =>
    .ok ⟨gc.allocations.set r (.closure p a (us ++ [u])), gc.stringPool⟩
  | _ => .error "invalid closure reference"

/-- Modelled from the spec: `Value::unbox` is called throughout `vm.rs` but
its definition is not among the provided sources.  Per the specification an
upvalue behaves as a transparent box that is dereferenced to the underlying
value when read; every other value is returned unchanged. -/
def unboxValue (gc : GarbageCollector) (v : Value) : Except String Value :=
  match v with
  | .upvalue r => gc.readCell r
  | v => .ok v

/-- The overloaded equality on values (`impl PartialEq for Value`): numbers
compare within machine epsilon, booleans and nil structurally, strings and
function pointers first by pointer and then by referent, and every other
pair of tags — including the closure and upvalue variants used by `vm.rs`,
which fall into the catch-all arm — compares unequal. -/
def valueEq (gc : GarbageCollector) : Value → Value → Bool
  | .number n1, .number n2 => F64.flt (F64.fabs (F64.fsub n1 n2)) EPSILON
  | .boolean b1, .boolean b2 => b1 == b2
  | .nil, .nil => true
  | .string s1, .string s2 =>
    if s1 = s2 then true
    else
      match gc.stringAt s1, gc.stringAt s2 with
      | some a, some b => a == b
      | _, _ => false
  | .functionPointer f1, .functionPointer f2 =>
    if f1 = f2 then true
    else
      match gc.functionPointerAt f1, gc.functionPointerAt f2 with
      | some (p1, a1), some (p2, a2) => p1 == p2 && a1 == a2
      | _, _ => false
  | _, _ => false

/-- The bytecode (`bytecode.rs`): a byte stream of opcodes and little-endian
inline operands, plus the constant pool.  Bytes are naturals below 256. -/
structure Bytecode where
  code : List Nat
  constants : List Constant
deriving DecidableEq

/-- The operation codes, in the declaration order of `bytecode.rs` (which
fixes their byte values). -/
inductive OperationCode where
  | constant
  | nilOp
  | trueOp
  | falseOp
  | funOp
  | negate
  | notOp
  | add
  | subtract
  | multiply
  | divide
  | equal
  | greater
  | less
  | getGlobal
  | setGlobal
  | getLocal
  | setLocal
  | pop
  | closure
  | capture
  | getUpvalue
  | setUpvalue
  | jumpIfFalse
  | jump
  | call
  | invoke
  | ret
  | print
deriving DecidableEq

/-- Decode an opcode byte (`Fetch<OperationCode> for BytecodeReader`): any
byte at or past the `Impossible` guard variant (byte 29) is refused. -/
def decodeOp : Nat → Option OperationCode
  | 0 => some .constant
  | 1 => some .nilOp
  | 2 => some .trueOp
  | 3 => some .falseOp
  | 4 => some .funOp
  | 5 => some .negate
  | 6 => some .notOp
  | 7 => some .add
  | 8 => some .subtract
  | 9 => some .multiply
  | 10 => some .divide
  | 11 => some .equal
  | 12 => some .greater
  | 13 => some .less
  | 14 => some .getGlobal
  | 15 => some .setGlobal
  | 16 => some .getLocal
  | 17 => some .setLocal
  | 18 => some .pop
  | 19 => some .closure
  | 20 => some .capture
  | 21 => some .getUpvalue
  | 22 => some .setUpvalue
  | 23 => some .jumpIfFalse
  | 24 => some .jump
  | 25 => some .call
  | 26 => some .invoke
  | 27 => some .ret
  | 28 => some .print
  | _ => none

/-- A saved call frame (`CallFrame` in `vm.rs`): the return position in the
byte stream (stored as a sixteen-bit `CallPosition` in the source, so the
cursor position is reduced modulo 65536 when saved), the saved frame base
and the saved current closure. -/
structure CallFrame where
  position : Nat
  frame : Nat
  closure : Option Nat
deriving DecidableEq

/-- `GLOBALS_CAPACITY`: one more than the largest eight-bit global index. -/
def GLOBALS_CAPACITY : Nat := 256

/-- `LOCALS_CAPACITY`: one more than the largest eight-bit local offset. -/
def LOCALS_CAPACITY : Nat := 256

/-- The virtual machine state proper (`struct VirtualMachine` in `vm.rs`).
The call stack is kept most recent frame first (the Rust `Vec` pushes and
pops at its back). -/
structure VirtualMachine where
  globals : List Value
  stack : Stack Value LOCALS_CAPACITY
  gc : GarbageCollector
  frame : Nat
  closure : Option Nat
  callstack : List CallFrame
deriving DecidableEq

/-- `VirtualMachine::new`. -/
def VirtualMachine.new : VirtualMachine :=
  { globals := List.replicate GLOBALS_CAPACITY .nil
    stack := Stack.new
    gc := GarbageCollector.new
    frame := 0
    closure := none
    callstack := [] }

/-- `VirtualMachine::reset`: refill the globals with nil, clear the stack,
zero the frame base and clear the call stack.  The garbage collector and
the current closure are not touched. -/
def VirtualMachine.reset (vm : VirtualMachine) : VirtualMachine :=
  { vm with
    globals := List.replicate vm.globals.length .nil
    stack := vm.stack.clear
    frame := 0
    callstack := [] }

/-- The full interpreter state: the machine together with the byte cursor
of the bytecode reader and the values printed so far. -/
structure VMState where
  vm : VirtualMachine
  position : Nat
  output : List Value
deriving DecidableEq

/-- The state in which `interpret` starts on a fresh machine. -/
def initialState : VMState :=
  { vm := VirtualMachine.new, position := 0, output := [] }

/-- Read one byte at the cursor and advance (`Fetch<u8>`); a read past the
end of the code stream is a fault.  The result is reduced modulo 256, as a
byte read can only produce an eight-bit value. -/
def fetchU8 (bc : Bytecode) (s : VMState) : Except String (Nat × VMState) :=
  match bc.code.get? s.position with
  | none => .error "unexpected end of bytecode"
  | some b => .ok (b % 256, { s with position := s.position + 1 })

/-- Read a little-endian sixteen-bit operand (`Fetch<u16>`). -/
def fetchU16 (bc : Bytecode) (s : VMState) : Except String (Nat × VMState) :=
  match fetchU8 bc s with
  | .error e => .error e
  | .ok (b0, s) =>
    match fetchU8 bc s with
    | .error e => .error e
    | .ok (b1, s) => .ok (b0 + 256 * b1, s)

/-- Read a little-endian signed sixteen-bit operand (`Fetch<i16>`). -/
def fetchI16 (bc : Bytecode) (s : VMState) : Except String (Int × VMState) :=
  match fetchU16 bc s with
  | .error e => .error e
  | .ok (v, s) =>
    .ok (if v ≥ 32768 then (v : Int) - 65536 else (v : Int), s)

/-- `BytecodeReader::jump`: move the cursor by a signed offset; seeking
before the start of the stream is a fault. -/
def jumpCursor (s : VMState) (offset : Int) : Except String VMState :=
  if (s.position : Int) + offset < 0 then .error "seek before start"
  else .ok { s with position := ((s.position : Int) + offset).toNat }

/-- The outcome of one interpreter iteration: either the next state, or the
final state when the outermost return ends the loop. -/
inductive StepOut where
  | next (s : VMState)
  | done (s : VMState)
deriving DecidableEq

/-- Push a value on the evaluation stack and continue. -/
def pushNext (s : VMState) (v : Value) : Except String StepOut :=
  match s.vm.stack.push v with
  | .error e => .error e
  | .ok st => .ok (.next { s with vm.stack := st })

/-- The `arithmetic!` macro of `vm.rs`: peek and transparently unbox both
operands, require numbers, then pop both and push the combined result. -/
def execArithmetic (s : VMState) (combine : F64 → F64 → Value) :
    Except String StepOut :=
  match s.vm.stack.peek 0 with
  | .error e => .error e
  | .ok right0 =>
    match s.vm.stack.peek 1 with
    | .error e => .error e
    | .ok left0 =>
      match unboxValue s.vm.gc right0, unboxValue s.vm.gc left0 with
      | .error e, _ => .error e
      | _, .error e => .error e
      | .ok (.number r), .ok (.number l) =>
        match s.vm.stack.pop with
        | .error e => .error e
        | .ok (_, st1) =>
          match st1.pop with
          | .error e => .error e
          | .ok (_, st2) => pushNext { s with vm.stack := st2 } (combine l r)
      | .ok _, .ok _ => .error "arithmetic operator can only be applied to numbers"

/-- One iteration of the `interpret` dispatch loop for an already decoded
opcode; `s.position` is the cursor just past the opcode byte.  Each arm
transcribes the corresponding `match` arm of `vm.rs`. -/
def execOp (bc : Bytecode) (op : OperationCode) (s : VMState) :
    Except String StepOut :=
  match op with
  | .constant =>
    match fetchU16 bc s with
    | .error e => .error e
    | .ok (index, s) =>
      match loadConstant bc.constants index with
      | .error e => .error e
      | .ok (.number n) => pushNext s (.number n)
      | .ok (.string str) =>
        let allocation := s.vm.gc.allocateString str
        pushNext { s with vm.gc := allocation.2 } (.string allocation.1)
  | .nilOp => pushNext s .nil
  | .trueOp => pushNext s (.boolean true)
  | .falseOp => pushNext s (.boolean false)
  | .funOp =>
    match fetchU16 bc s with
    | .error e => .error e
    | .ok (position, s) =>
      match fetchU8 bc s with
      | .error e => .error e
      | .ok (arity, s) =>
        let allocation := s.vm.gc.allocateObj (.functionPointer position arity)
        pushNext { s with vm.gc := allocation.2 } (.functionPointer allocation.1)
  | .negate =>
    match s.vm.stack.top with
    | .error e => .error e
    | .ok t =>
      match unboxValue s.vm.gc t with
      | .error e => .error e
      | .ok (.number n) =>
        match s.vm.stack.pop with
        | .error e => .error e
        | .ok (_, st) => pushNext { s with vm.stack := st } (.number (F64.fneg n))
      | .ok _ => .error "negate operator can only be applied to numbers"
  | .notOp =>
    match s.vm.stack.top with
    | .error e => .error e
    | .ok t =>
      match s.vm.stack.pop with
      | .error e => .error e
      | .ok (_, st) => pushNext { s with vm.stack := st } (.boolean (!t.asBoolean))
  | .add =>
    match s.vm.stack.peek 0 with
    | .error e => .error e
    | .ok right0 =>
      match s.vm.stack.peek 1 with
      | .error e => .error e
      | .ok left0 =>
        match unboxValue s.vm.gc right0, unboxValue s.vm.gc left0 with
        | .error e, _ => .error e
        | _, .error e => .error e
        | .ok right, .ok left =>
          match left, right with
          | .number l, .number r =>
            match s.vm.stack.pop with
            | .error e => .error e
            | .ok (_, st1) =>
              match st1.pop with
              | .error e => .error e
              | .ok (_, st2) =>
                pushNext { s with vm.stack := st2 } (.number (F64.fadd l r))
          | .string l, .string r =>
            match s.vm.gc.stringAt l, s.vm.gc.stringAt r with
            | some sl, some sr =>
              let allocation := s.vm.gc.allocateString (sl ++ sr)
              match s.vm.stack.pop with
              | .error e => .error e
              | .ok (_, st1) =>
                match st1.pop with
                | .error e => .error e
                | .ok (_, st2) =>
                  pushNext { s with vm.stack := st2, vm.gc := allocation.2 }
                    (.string allocation.1)
            | _, _ => .error "invalid string reference"
          | _, _ => .error "add operator can only be applied to numbers or strings"
  | .subtract => execArithmetic s (fun l r => Value.number (F64.fsub l r))
  | .multiply => execArithmetic s (fun l r => Value.number (F64.fmul l r))
  | .divide => execArithmetic s (fun l r => Value.number (F64.fdiv l r))
  | .equal =>
    match s.vm.stack.peek 0 with
    | .error e => .error e
    | .ok right =>
      match s.vm.stack.peek 1 with
      | .error e => .error e
      | .ok left =>
        let eq := valueEq s.vm.gc left right
        match s.vm.stack.pop with
        | .error e => .error e
        | .ok (_, st1) =>
          match st1.pop with
          | .error e => .error e
          | .ok (_, st2) => pushNext { s with vm.stack := st2 } (.boolean eq)
  | .greater => execArithmetic s (fun l r => Value.boolean (F64.fgt l r))
  | .less => execArithmetic s (fun l r => Value.boolean (F64.flt l r))
  | .setGlobal =>
    match fetchU8 bc s with
    | .error e => .error e
    | .ok (index, s) =>
      match s.vm.stack.top with
      | .error e => .error e
      | .ok value =>
        match s.vm.globals.get? index with
        | none => .error "global index out of bounds"
        | some (.upvalue u) =>
          match s.vm.gc.writeCell u value with
          | .error e => .error e
          | .ok gc => .ok (.next { s with vm.gc := gc })
        | some _ =>
          .ok (.next { s with vm.globals := s.vm.globals.set index value })
  | .getGlobal =>
    match fetchU8 bc s with
    | .error e => .error e
    | .ok (index, s) =>
      match s.vm.globals.get? index with
      | none => .error "global index out of bounds"
      | some v => pushNext s v
  | .getLocal =>
    match fetchU8 bc s with
    | .error e => .error e
    | .ok (offset, s) =>
      match s.vm.stack.index ((s.vm.frame + offset) % 256) with
      | .error e => .error e
      | .ok v => pushNext s v
  | .setLocal =>
    match fetchU8 bc s with
    | .error e => .error e
    | .ok (offset, s) =>
      match s.vm.stack.top with
      | .error e => .error e
      | .ok value =>
        match s.vm.stack.index ((s.vm.frame + offset) % 256) with
        | .error e => .error e
        | .ok (.upvalue u) =>
          match s.vm.gc.writeCell u value with
          | .error e => .error e
          | .ok gc => .ok (.next { s with vm.gc := gc })
        | .ok _ =>
          match s.vm.stack.setAt ((s.vm.frame + offset) % 256) value with
          | .error e => .error e
          | .ok st => .ok (.next { s with vm.stack := st })
  | .pop =>
    match s.vm.stack.pop with
    | .error e => .error e
    | .ok (_, st) => .ok (.next { s with vm.stack := st })
  | .closure =>
    match fetchU16 bc s with
    | .error e => .error e
    | .ok (position, s) =>
      match fetchU8 bc s with
      | .error e => .error e
      | .ok (arity, s) =>
        let allocation := s.vm.gc.allocateObj (.closure position arity [])
        pushNext { s with vm.gc := allocation.2 } (.closure allocation.1)
  | .capture =>
    match fetchU8 bc s with
    | .error e => .error e
    | .ok (offset, s) =>
      match s.vm.stack.index ((s.vm.frame + offset) % 256) with
      | .error e => .error e
      | .ok value =>
        match s.vm.stack.top with
        | .error e => .error e
        | .ok (.closure c) =>
          match value with
          | .upvalue u =>
            match s.vm.gc.pushUpvalue c u with
            | .error e => .error e
            | .ok gc => .ok (.next { s with vm.gc := gc })
          | _ =>
            let allocation := s.vm.gc.allocateObj (.upvalue value)
            match s.vm.stack.setAt ((s.vm.frame + offset) % 256)
                (.upvalue allocation.1) with
            | .error e => .error e
            | .ok st =>
              match allocation.2.pushUpvalue c allocation.1 with
              | .error e => .error e
              | .ok gc2 => .ok (.next { s with vm.stack := st, vm.gc := gc2 })
        | .ok _ => .error "trying to capture value without closure at the stack top"
  | .getUpvalue =>
    match fetchU8 bc s with
    | .error e => .error e
    | .ok (offset, s) =>
      match s.vm.closure with
      | none => .error "trying to get upvalue outside a closure"
      | some c =>
        match s.vm.gc.closureAt c with
        | .error e => .error e
        | .ok (_, _, ups) =>
          match ups.get? offset with
          | none => .error "upvalue index out of bounds"
          | some u => pushNext s (.upvalue u)
  | .setUpvalue =>
    match fetchU8 bc s with
    | .error e => .error e
    | .ok (offset, s) =>
      match s.vm.closure with
      | none => .error "trying to set upvalue outside a closure"
      | some c =>
        match s.vm.gc.closureAt c with
        | .error e => .error e
        | .ok (_, _, ups) =>
          match ups.get? offset with
          | none => .error "upvalue index out of bounds"
          | some u =>
            match s.vm.stack.top with
            | .error e => .error e
            | .ok t =>
              match unboxValue s.vm.gc t with
              | .error e => .error e
              | .ok value =>
                match s.vm.gc.writeCell u value with
                | .error e => .error e
                | .ok gc => .ok (.next { s with vm.gc := gc })
  | .jumpIfFalse =>
    match fetchI16 bc s with
    | .error e => .error e
    | .ok (offset, s) =>
      match s.vm.stack.top with
      | .error e => .error e
      | .ok t =>
        if t.asBoolean = false then
          match jumpCursor s offset with
          | .error e => .error e
          | .ok s => .ok (.next s)
        else .ok (.next s)
  | .jump =>
    match fetchI16 bc s with
    | .error e => .error e
    | .ok (offset, s) =>
      match jumpCursor s offset with
      | .error e => .error e
      | .ok s => .ok (.next s)
  | .call =>
    match fetchU16 bc s with
    | .error e => .error e
    | .ok (position, s) =>
      match fetchU8 bc s with
      | .error e => .error e
      | .ok (frameOffset, s) =>
        let lastFrame : CallFrame :=
          { position := s.position % 65536, frame := s.vm.frame
            closure := s.vm.closure }
        .ok (.next { s with
          vm.callstack := lastFrame :: s.vm.callstack
          vm.closure := none
          vm.frame := (s.vm.stack.len % 256 + 256 - frameOffset) % 256
          position := position })
  | .invoke =>
    match s.vm.stack.top with
    | .error e => .error e
    | .ok t =>
      match unboxValue s.vm.gc t with
      | .error e => .error e
      | .ok (.functionPointer f) =>
        match s.vm.gc.fpAt f with
        | .error e => .error e
        | .ok (position, frameOffset) =>
          match s.vm.stack.pop with
          | .error e => .error e
          | .ok (_, st) =>
            let lastFrame : CallFrame :=
              { position := s.position % 65536, frame := s.vm.frame
                closure := s.vm.closure }
            .ok (.next { s with
              vm.stack := st
              vm.callstack := lastFrame :: s.vm.callstack
              vm.closure := none
              vm.frame := (st.len % 256 + 256 - frameOffset % 256) % 256
              position := position })
      | .ok (.closure c) =>
        match s.vm.gc.closureAt c with
        | .error e => .error e
        | .ok (position, frameOffset, _) =>
          match s.vm.stack.pop with
          | .error e => .error e
          | .ok (_, st) =>
            let lastFrame : CallFrame :=
              { position := s.position % 65536, frame := s.vm.frame
                closure := s.vm.closure }
            .ok (.next { s with
              vm.stack := st
              vm.callstack := lastFrame :: s.vm.callstack
              vm.closure := some c
              vm.frame := (st.len % 256 + 256 - frameOffset % 256) % 256
              position := position })
      | .ok _ => .error "object is not callable"
  | .ret =>
    match s.vm.callstack with
    | [] => .ok (.done s)
    | lastFrame :: rest =>
      match s.vm.stack.top with
      | .error e => .error e
      | .ok t =>
        match s.vm.stack.setAt s.vm.frame t with
        | .error e => .error e
        | .ok st =>
          .ok (.next { s with
            vm.stack := ⟨st.elements.take ((s.vm.frame + 1) % 256)⟩
            vm.frame := lastFrame.frame
            vm.closure := lastFrame.closure
            vm.callstack := rest
            position := lastFrame.position })
  | .print =>
    match s.vm.stack.top with
    | .error e => .error e
    | .ok t =>
      match s.vm.stack.pop with
      | .error e => .error e
      | .ok (_, st) =>
        .ok (.next { s with vm.stack := st, output := s.output ++ [t] })

/-- One full fetch-decode-dispatch iteration of `interpret`. -/
def step (bc : Bytecode) (s : VMState) : Except String StepOut :=
  match fetchU8 bc s with
  | .error e => .error e
  | .ok (b, s1) =>
    match decodeOp b with
    | none => .error "invalid operation code"
    | some op => execOp bc op s1

/-- Iterate `step` a fixed number of times, requiring the loop not to end. -/
def stepN (bc : Bytecode) : Nat → VMState → Except String VMState
  | 0, s => .ok s
  | n + 1, s =>
    match step bc s with
    | .error e => .error e
    | .ok (.done _) => .error "execution finished early"
    | .ok (.next s') => stepN bc n s'

/-- Every heap upvalue cell holds a plain value, never another upvalue. -/
def UpvalueInvariant (gc : GarbageCollector) : Prop :=
  ∀ r v u, gc.allocations.get? r = some (.upvalue v) → v ≠ .upvalue u

/-- Unfold one fetch-decode step to the dispatch of a known opcode byte. -/
theorem step_eq_exec (bc : Bytecode) (s : VMState) (b : Nat) (op : OperationCode)
    (hb : bc.code.get? s.position = some b) (hlt : b < 256)
    (hop : decodeOp b = some op) :
    step bc s = execOp bc op { s with position := s.position + 1 } := by
  unfold step fetchU8
  rw [hb]
  simp only [Nat.mod_eq_of_lt hlt, hop]

/-- A successful push appends the value and leaves everything else alone. -/
theorem pushNext_ok (s : VMState) (v : Value) (out : StepOut)
    (h : pushNext s v = .ok out) :
    s.vm.stack.elements.length < 256 ∧
    out = .next { s with vm.stack := ⟨s.vm.stack.elements ++ [v]⟩ } := by
  unfold pushNext at h
  cases hp : s.vm.stack.push v with
  | error e =>
    rw [hp] at h
    exact absurd h (by simp)
  | ok st =>
    rw [hp] at h
    unfold Stack.push at hp
    split at hp
    · exact absurd hp (by simp)
    · rename_i hlen
      cases hp
      cases h
      refine ⟨?_, rfl⟩
      simp only [LOCALS_CAPACITY, ge_iff_le, not_le] at hlen
      exact hlen

/-- Claim C10 — `VirtualMachine::reset` refills the globals with nil,
empties the evaluation stack, zeroes the frame base and empties the call
stack, while the current-closure field keeps its previous value. -/
theorem reset_resets_state_and_keeps_closure (vm : VirtualMachine) :
    vm.reset.globals = List.replicate vm.globals.length Value.nil ∧
    vm.reset.stack.elements = [] ∧
    vm.reset.frame = 0 ∧
    vm.reset.callstack = [] ∧
    vm.reset.closure = vm.closure :=
  ⟨rfl, rfl, rfl, rfl, rfl⟩

/-- Claim C7 — on the capacity-256 evaluation stack, a push at depth 256
faults and a pop, top or peek on an empty stack faults, while a push below
capacity and a pop on a nonempty stack succeed, keeping the depth within
bounds. -/
theorem stack_capacity_bounds (s : Stack Value 256) (v : Value) (n : Nat) :
    (s.elements.length = 256 → s.push v = .error "stack overflow") ∧
    (s.elements.length < 256 →
      s.push v = .ok ⟨s.elements ++ [v]⟩ ∧ (s.elements ++ [v]).length ≤ 256) ∧
    (s.elements.length = 0 →
      s.pop = .error "stack underflow" ∧
      s.top = .error "stack underflow, cannot peek" ∧
      s.peek n = .error "stack underflow, cannot peek") ∧
    (0 < s.elements.length →
      ∃ t, s.pop = .ok (t, ⟨s.elements.dropLast⟩) ∧
        s.elements.dropLast.length = s.elements.length - 1) := by
  refine ⟨?_, ?_, ?_, ?_⟩
  · intro h
    unfold Stack.push
    rw [if_pos (by omega)]
  · intro h
    refine ⟨?_, by simp; omega⟩
    unfold Stack.push
    rw [if_neg (by omega)]
  · intro h
    have hnil : s.elements = [] := List.length_eq_zero.mp h
    refine ⟨?_, ?_, ?_⟩
    · unfold Stack.pop
      rw [hnil]
      rfl
    · unfold Stack.top Stack.peek
      rw [dif_pos (by omega)]
    · unfold Stack.peek
      rw [dif_pos (by omega)]
  · intro h
    have hne : s.elements ≠ [] := by
      intro hnil
      rw [hnil] at h
      exact absurd h (by simp)
    obtain ⟨t, ht⟩ := Option.isSome_iff_exists.mp (List.getLast?_isSome.mpr hne)
    refine ⟨t, ?_, by simp⟩
    unfold Stack.pop
    rw [ht]

/-- The bytecode of a reachable execution in which a promoted local slot is
read back: push true, create a closure, capture local slot zero (promoting
it to an upvalue box), pop the closure, then read local slot zero. -/
def boxedReadProg : Bytecode :=
  { code := [2, 19, 0, 0, 0, 20, 0, 18, 16, 0], constants := [] }

/-- The state after five steps of `boxedReadProg`. -/
def boxedReadState : VMState :=
  { vm := { globals := List.replicate 256 .nil
            stack := ⟨[.upvalue 1, .upvalue 1]⟩
            gc := ⟨[.closure 0 0 [1], .upvalue (.boolean true)], []⟩
            frame := 0
            closure := none
            callstack := [] }
    position := 10
    output := [] }

/-- Claim C1, counterexample — in a reachable execution whose local slot
zero holds an upvalue box over the plain value true, `GetLocal 0` pushes
the upvalue box itself onto the stack, not a plain value. -/
theorem getLocal_pushes_upvalue_box :
    stepN boxedReadProg 5 initialState = .ok boxedReadState ∧
    boxedReadState.vm.stack.elements.getLast? = some (Value.upvalue 1) ∧
    boxedReadState.vm.gc.allocations.get? 1 = some (.upvalue (.boolean true)) ∧
    Value.upvalue 1 ≠ Value.boolean true :=
  ⟨rfl, rfl, rfl, by simp⟩

/-- The bytecode of a reachable execution that assigns a boxed read back to
a promoted local: as `boxedReadProg`, followed by `SetLocal 0`. -/
def secondOrderProg : Bytecode :=
  { code := [2, 19, 0, 0, 0, 20, 0, 18, 16, 0, 17, 0], constants := [] }

/-- The state after six steps of `secondOrderProg`. -/
def secondOrderState : VMState :=
  { vm := { globals := List.replicate 256 .nil
            stack := ⟨[.upvalue 1, .upvalue 1]⟩
            gc := ⟨[.closure 0 0 [1], .upvalue (.upvalue 1)], []⟩
            frame := 0
            closure := none
            callstack := [] }
    position := 12
    output := [] }

/-- Claim C2 — evaluation of the code at the failing input: because
`SetLocal` (like `SetGlobal`) peeks the assigned value without unboxing it,
executing `GetLocal 0; SetLocal 0` on a promoted slot stores the upvalue
box into its own heap cell, and the reachable state after six steps of
`secondOrderProg` violates the never-a-second-order-upvalue invariant that
the specification and the comment in the `Capture` arm of `vm.rs` claim. -/
theorem setLocal_creates_second_order_upvalue :
    stepN secondOrderProg 6 initialState = .ok secondOrderState ∧
    secondOrderState.vm.gc.allocations.get? 1 = some (.upvalue (.upvalue 1)) ∧
    ¬ UpvalueInvariant secondOrderState.vm.gc :=
  ⟨rfl, rfl, fun h => absurd rfl (h 1 (.upvalue 1) 1 rfl)⟩

/-- Claim C1, amended — the three read instructions push the addressed
slot, global or upvalue reference verbatim: `GetLocal` and `GetGlobal`
push a clone of the slot (an upvalue box included, when the slot holds
one), and `GetUpvalue` pushes the upvalue box for the addressed cell;
dereferencing is deferred to the consuming instruction. -/
theorem reads_push_addressed_slot_amended (bc : Bytecode) (s s' : VMState) (off : Nat)
    (hoff : off < 256) (hb1 : bc.code.get? (s.position + 1) = some off) :
    (bc.code.get? s.position = some 16 →
      step bc s = .ok (.next s') →
      ∃ v, s.vm.stack.index ((s.vm.frame + off) % 256) = .ok v ∧
        s'.vm.stack.elements = s.vm.stack.elements ++ [v] ∧
        s'.vm.gc = s.vm.gc ∧ s'.vm.globals = s.vm.globals ∧
        s'.position = s.position + 2) ∧
    (bc.code.get? s.position = some 14 →
      step bc s = .ok (.next s') →
      ∃ v, s.vm.globals.get? off = some v ∧
        s'.vm.stack.elements = s.vm.stack.elements ++ [v] ∧
        s'.vm.gc = s.vm.gc ∧
        s'.position = s.position + 2) ∧
    (∀ c p a ups u,
      bc.code.get? s.position = some 21 →
      s.vm.closure = some c →
      s.vm.gc.allocations.get? c = some (.closure p a ups) →
      ups.get? off = some u →
      step bc s = .ok (.next s') →
      s'.vm.stack.elements = s.vm.stack.elements ++ [Value.upvalue u] ∧
      s'.vm.gc = s.vm.gc ∧ s'.position = s.position + 2) := by
  refine ⟨?_, ?_, ?_⟩
  · intro hb hstep
    rw [step_eq_exec bc s 16 .getLocal hb (by omega) rfl] at hstep
    unfold execOp fetchU8 at hstep
    simp only [hb1, Nat.mod_eq_of_lt hoff] at hstep
    split at hstep
    · exact absurd hstep (by simp)
    · rename_i v hv
      obtain ⟨hlen, hout⟩ := pushNext_ok _ _ _ hstep
      rw [StepOut.next.injEq] at hout
      subst hout
      exact ⟨v, hv, by simp, rfl, rfl, rfl⟩
  · intro hb hstep
    rw [step_eq_exec bc s 14 .getGlobal hb (by omega) rfl] at hstep
    unfold execOp fetchU8 at hstep
    simp only [hb1, Nat.mod_eq_of_lt hoff] at hstep
    split at hstep
    · exact absurd hstep (by simp)
    · rename_i v hv
      obtain ⟨hlen, hout⟩ := pushNext_ok _ _ _ hstep
      rw [StepOut.next.injEq] at hout
      subst hout
      exact ⟨v, hv, by simp, rfl, rfl⟩
  · intro c p a ups u hb hc hca hu hstep
    rw [step_eq_exec bc s 21 .getUpvalue hb (by omega) rfl] at hstep
    unfold execOp fetchU8 at hstep
    simp only [hb1, Nat.mod_eq_of_lt hoff, hc] at hstep
    unfold GarbageCollector.closureAt at hstep
    simp only [hca, hu] at hstep
    obtain ⟨hlen, hout⟩ := pushNext_ok _ _ _ hstep
    rw [StepOut.next.injEq] at hout
    subst hout
    exact ⟨by simp, rfl, rfl⟩

/-- Concrete two-byte program reading local slot zero. -/
def c1wBcA : Bytecode := { code := [16, 0], constants := [] }

/-- A state whose local slot zero holds a boolean. -/
def c1wStateA : VMState :=
  { vm := { globals := [], stack := ⟨[.boolean true]⟩, gc := ⟨[], []⟩
            frame := 0, closure := none, callstack := [] }
    position := 0, output := [] }

/-- The state after the read of local slot zero. -/
def c1wPostA : VMState :=
  { vm := { globals := [], stack := ⟨[.boolean true, .boolean true]⟩, gc := ⟨[], []⟩
            frame := 0, closure := none, callstack := [] }
    position := 2, output := [] }

/-- Concrete two-byte program reading global slot three. -/
def c1wBcB : Bytecode := { code := [14, 3], constants := [] }

/-- A state whose global slot three holds a boolean. -/
def c1wStateB : VMState :=
  { vm := { globals := [.nil, .nil, .nil, .boolean false], stack := ⟨[]⟩, gc := ⟨[], []⟩
            frame := 0, closure := none, callstack := [] }
    position := 0, output := [] }

/-- The state after the read of global slot three. -/
def c1wPostB : VMState :=
  { vm := { globals := [.nil, .nil, .nil, .boolean false], stack := ⟨[.boolean false]⟩
            gc := ⟨[], []⟩, frame := 0, closure := none, callstack := [] }
    position := 2, output := [] }

/-- Concrete two-byte program reading upvalue zero of the current closure. -/
def c1wBcC : Bytecode := { code := [21, 0], constants := [] }

/-- A state running inside a closure with one captured upvalue cell. -/
def c1wStateC : VMState :=
  { vm := { globals := [], stack := ⟨[]⟩
            gc := ⟨[.closure 7 0 [1], .upvalue .nil], []⟩
            frame := 0, closure := some 0, callstack := [] }
    position := 0, output := [] }

/-- The state after the upvalue read: the box itself was pushed. -/
def c1wPostC : VMState :=
  { vm := { globals := [], stack := ⟨[.upvalue 1]⟩
            gc := ⟨[.closure 7 0 [1], .upvalue .nil], []⟩
            frame := 0, closure := some 0, callstack := [] }
    position := 2, output := [] }

/-- Witness for the amended claim C1 at concrete inputs. -/
theorem reads_push_addressed_slot_amended_witness :
    (∃ v, c1wStateA.vm.stack.index ((c1wStateA.vm.frame + 0) % 256) = .ok v ∧
      c1wPostA.vm.stack.elements = c1wStateA.vm.stack.elements ++ [v] ∧
      c1wPostA.vm.gc = c1wStateA.vm.gc ∧
      c1wPostA.vm.globals = c1wStateA.vm.globals ∧
      c1wPostA.position = c1wStateA.position + 2) ∧
    (∃ v, c1wStateB.vm.globals.get? 3 = some v ∧
      c1wPostB.vm.stack.elements = c1wStateB.vm.stack.elements ++ [v] ∧
      c1wPostB.vm.gc = c1wStateB.vm.gc ∧
      c1wPostB.position = c1wStateB.position + 2) ∧
    (c1wPostC.vm.stack.elements = c1wStateC.vm.stack.elements ++ [Value.upvalue 1] ∧
      c1wPostC.vm.gc = c1wStateC.vm.gc ∧
      c1wPostC.position = c1wStateC.position + 2) :=
  ⟨(reads_push_addressed_slot_amended c1wBcA c1wStateA c1wPostA 0
      (by decide) rfl).1 rfl rfl,
   (reads_push_addressed_slot_amended c1wBcB c1wStateB c1wPostB 3
      (by decide) rfl).2.1 rfl rfl,
   (reads_push_addressed_slot_amended c1wBcC c1wStateC c1wPostC 0
      (by decide) rfl).2.2 0 7 0 [1] 1 rfl rfl rfl rfl rfl⟩

/-- The top of the stack is its last pushed element. -/
theorem top_ok_iff_getLast {α : Type} {N : Nat} (s : Stack α N) (t : α) :
    s.top = .ok t ↔ s.elements.getLast? = some t := by
  unfold Stack.top Stack.peek
  constructor
  · intro h
    split at h
    · simp at h
    · rename_i hlen
      injection h with h
      rw [List.getLast?_eq_getElem?, List.getElem?_eq_getElem (by omega)]
      simp only [List.get_eq_getElem, Nat.sub_zero] at h
      rw [Option.some_inj]
      exact h
  · intro h
    rw [List.getLast?_eq_getElem?] at h
    have hlen : 0 < s.elements.length := by
      obtain ⟨hlt, -⟩ := List.getElem?_eq_some.mp h
      omega
    rw [dif_neg (by omega)]
    rw [List.getElem?_eq_getElem (by omega)] at h
    injection h with h
    simp only [List.get_eq_getElem, Nat.sub_zero]
    rw [Except.ok.injEq]
    exact h

/-- Overwriting any slot with the current top value keeps the top value. -/
theorem topAfterSet {α : Type} {N : Nat} (s : Stack α N) (i : Nat) (t : α)
    (htop : s.top = .ok t) :
    (⟨s.elements.set i t⟩ : Stack α N).top = .ok t := by
  rw [top_ok_iff_getLast] at htop ⊢
  rw [List.getLast?_eq_getElem?] at htop ⊢
  simp only [List.length_set]
  by_cases hie : i = s.elements.length - 1
  · subst hie
    have hlen : 0 < s.elements.length := by
      obtain ⟨hlt, -⟩ := List.getElem?_eq_some.mp htop
      omega
    rw [List.getElem?_set_eq_of_lt _ (by omega)]
  · rw [List.getElem?_set_ne (by omega)]
    exact htop

/-- Claim C4 — the three write instructions peek the assigned value from
the top of the stack without popping it, so the stack depth and the
top-of-stack value are unchanged; when the addressed slot holds an upvalue
box the boxed heap cell is overwritten in place, otherwise the slot itself
is overwritten, and nothing else in the state changes (the exact post
state is given in each case). -/
theorem writes_peek_and_overwrite_in_place (bc : Bytecode) (s s' : VMState)
    (off : Nat) (t : Value)
    (hoff : off < 256) (hb1 : bc.code.get? (s.position + 1) = some off)
    (htop : s.vm.stack.top = .ok t) :
    (bc.code.get? s.position = some 17 →
      step bc s = .ok (.next s') →
      ∃ target, s.vm.stack.index ((s.vm.frame + off) % 256) = .ok target ∧
        s'.vm.stack.elements.length = s.vm.stack.elements.length ∧
        s'.vm.stack.top = .ok t ∧
        s'.vm.globals = s.vm.globals ∧
        s'.position = s.position + 2 ∧
        ((∀ u, target ≠ .upvalue u) →
          s'.vm.stack.elements = s.vm.stack.elements.set ((s.vm.frame + off) % 256) t ∧
          s'.vm.gc = s.vm.gc) ∧
        (∀ u, target = .upvalue u →
          s'.vm.stack = s.vm.stack ∧
          s'.vm.gc.allocations = s.vm.gc.allocations.set u (.upvalue t) ∧
          s'.vm.gc.stringPool = s.vm.gc.stringPool)) ∧
    (bc.code.get? s.position = some 15 →
      step bc s = .ok (.next s') →
      ∃ target, s.vm.globals.get? off = some target ∧
        s'.vm.stack = s.vm.stack ∧
        s'.position = s.position + 2 ∧
        ((∀ u, target ≠ .upvalue u) →
          s'.vm.globals = s.vm.globals.set off t ∧
          s'.vm.gc = s.vm.gc) ∧
        (∀ u, target = .upvalue u →
          s'.vm.globals = s.vm.globals ∧
          s'.vm.gc.allocations = s.vm.gc.allocations.set u (.upvalue t) ∧
          s'.vm.gc.stringPool = s.vm.gc.stringPool)) ∧
    (∀ c p a ups u tv,
      bc.code.get? s.position = some 22 →
      s.vm.closure = some c →
      s.vm.gc.allocations.get? c = some (.closure p a ups) →
      ups.get? off = some u →
      unboxValue s.vm.gc t = .ok tv →
      step bc s = .ok (.next s') →
      s'.vm.stack = s.vm.stack ∧
      s'.vm.globals = s.vm.globals ∧
      s'.position = s.position + 2 ∧
      s'.vm.gc.allocations = s.vm.gc.allocations.set u (.upvalue tv) ∧
      s'.vm.gc.stringPool = s.vm.gc.stringPool) := by
  refine ⟨?_, ?_, ?_⟩
  · intro hb hstep
    rw [step_eq_exec bc s 17 .setLocal hb (by omega) rfl] at hstep
    unfold execOp fetchU8 at hstep
    simp only [hb1, Nat.mod_eq_of_lt hoff, htop] at hstep
    split at hstep
    · exact absurd hstep (by simp)
    · rename_i u hidx
      split at hstep
      · exact absurd hstep (by simp)
      · rename_i gc hw
        injection hstep with hstep
        injection hstep with hstep
        subst hstep
        unfold GarbageCollector.writeCell at hw
        split at hw
        · rename_i v hv
          injection hw with hw
          subst hw
          exact ⟨.upvalue u, hidx, rfl, htop, rfl, rfl,
            fun hne => absurd rfl (hne u),
            fun u0 hu0 => by
              cases hu0
              exact ⟨rfl, rfl, rfl⟩⟩
        · exact absurd hw (by simp)
    · rename_i target hnotup hidx
      split at hstep
      · exact absurd hstep (by simp)
      · rename_i st hset
        injection hstep with hstep
        injection hstep with hstep
        subst hstep
        unfold Stack.setAt at hset
        split at hset
        · injection hset with hset
          subst hset
          exact ⟨target, hidx, by simp, topAfterSet _ _ _ htop, rfl, rfl,
            fun _ => ⟨rfl, rfl⟩, fun u0 hu0 => absurd (hnotup u0 hu0) (by simp)⟩
        · exact absurd hset (by simp)
  · intro hb hstep
    rw [step_eq_exec bc s 15 .setGlobal hb (by omega) rfl] at hstep
    unfold execOp fetchU8 at hstep
    simp only [hb1, Nat.mod_eq_of_lt hoff, htop] at hstep
    split at hstep
    · exact absurd hstep (by simp)
    · rename_i u hg
      split at hstep
      · exact absurd hstep (by simp)
      · rename_i gc hw
        injection hstep with hstep
        injection hstep with hstep
        subst hstep
        unfold GarbageCollector.writeCell at hw
        split at hw
        · rename_i v hv
          injection hw with hw
          subst hw
          exact ⟨.upvalue u, hg, rfl, rfl,
            fun hne => absurd rfl (hne u),
            fun u0 hu0 => by
              cases hu0
              exact ⟨rfl, rfl, rfl⟩⟩
        · exact absurd hw (by simp)
    · rename_i target hnotup hg
      injection hstep with hstep
      injection hstep with hstep
      subst hstep
      exact ⟨target, hg, rfl, rfl, fun _ => ⟨rfl, rfl⟩,
        fun u0 hu0 => absurd (hnotup u0 hu0) (by simp)⟩
  · intro c p a ups u tv hb hc hca hu hun hstep
    rw [step_eq_exec bc s 22 .setUpvalue hb (by omega) rfl] at hstep
    unfold execOp fetchU8 at hstep
    simp only [hb1, Nat.mod_eq_of_lt hoff, hc] at hstep
    unfold GarbageCollector.closureAt at hstep
    simp only [hca, hu, htop, hun] at hstep
    split at hstep
    · exact absurd hstep (by simp)
    · rename_i gc hw
      injection hstep with hstep
      injection hstep with hstep
      subst hstep
      unfold GarbageCollector.writeCell at hw
      split at hw
      · rename_i v hv
        injection hw with hw
        subst hw
        exact ⟨rfl, rfl, rfl, rfl, rfl⟩
      · exact absurd hw (by simp)

/-- Concrete two-byte program writing local slot zero. -/
def c4wBcA : Bytecode := { code := [17, 0], constants := [] }

/-- A state whose local slot zero holds nil and whose top is true. -/
def c4wStateA : VMState :=
  { vm := { globals := [], stack := ⟨[.nil, .boolean true]⟩, gc := ⟨[], []⟩
            frame := 0, closure := none, callstack := [] }
    position := 0, output := [] }

/-- The state after the local write: the slot was overwritten in place. -/
def c4wPostA : VMState :=
  { vm := { globals := [], stack := ⟨[.boolean true, .boolean true]⟩, gc := ⟨[], []⟩
            frame := 0, closure := none, callstack := [] }
    position := 2, output := [] }

/-- Concrete two-byte program writing global slot zero. -/
def c4wBcB : Bytecode := { code := [15, 0], constants := [] }

/-- A state whose global slot zero holds an upvalue box. -/
def c4wStateB : VMState :=
  { vm := { globals := [.upvalue 0], stack := ⟨[.boolean true]⟩
            gc := ⟨[.upvalue .nil], []⟩
            frame := 0, closure := none, callstack := [] }
    position := 0, output := [] }

/-- The state after the global write: the boxed cell was overwritten. -/
def c4wPostB : VMState :=
  { vm := { globals := [.upvalue 0], stack := ⟨[.boolean true]⟩
            gc := ⟨[.upvalue (.boolean true)], []⟩
            frame := 0, closure := none, callstack := [] }
    position := 2, output := [] }

/-- Concrete two-byte program writing upvalue zero of the closure. -/
def c4wBcC : Bytecode := { code := [22, 0], constants := [] }

/-- A state running inside a closure with one captured upvalue cell. -/
def c4wStateC : VMState :=
  { vm := { globals := [], stack := ⟨[.boolean false]⟩
            gc := ⟨[.closure 9 0 [1], .upvalue .nil], []⟩
            frame := 0, closure := some 0, callstack := [] }
    position := 0, output := [] }

/-- The state after the upvalue write: the cell was overwritten. -/
def c4wPostC : VMState :=
  { vm := { globals := [], stack := ⟨[.boolean false]⟩
            gc := ⟨[.closure 9 0 [1], .upvalue (.boolean false)], []⟩
            frame := 0, closure := some 0, callstack := [] }
    position := 2, output := [] }

/-- Witness for claim C4 at concrete inputs for each write instruction. -/
theorem writes_peek_and_overwrite_in_place_witness :
    (∃ target, c4wStateA.vm.stack.index ((c4wStateA.vm.frame + 0) % 256) = .ok target ∧
      c4wPostA.vm.stack.elements.length = c4wStateA.vm.stack.elements.length ∧
      c4wPostA.vm.stack.top = .ok (.boolean true) ∧
      c4wPostA.vm.globals = c4wStateA.vm.globals ∧
      c4wPostA.position = c4wStateA.position + 2 ∧
      ((∀ u, target ≠ .upvalue u) →
        c4wPostA.vm.stack.elements
          = c4wStateA.vm.stack.elements.set ((c4wStateA.vm.frame + 0) % 256) (.boolean true) ∧
        c4wPostA.vm.gc = c4wStateA.vm.gc) ∧
      (∀ u, target = .upvalue u →
        c4wPostA.vm.stack = c4wStateA.vm.stack ∧
        c4wPostA.vm.gc.allocations
          = c4wStateA.vm.gc.allocations.set u (.upvalue (.boolean true)) ∧
        c4wPostA.vm.gc.stringPool = c4wStateA.vm.gc.stringPool)) ∧
    (∃ target, c4wStateB.vm.globals.get? 0 = some target ∧
      c4wPostB.vm.stack = c4wStateB.vm.stack ∧
      c4wPostB.position = c4wStateB.position + 2 ∧
      ((∀ u, target ≠ .upvalue u) →
        c4wPostB.vm.globals = c4wStateB.vm.globals.set 0 (.boolean true) ∧
        c4wPostB.vm.gc = c4wStateB.vm.gc) ∧
      (∀ u, target = .upvalue u →
        c4wPostB.vm.globals = c4wStateB.vm.globals ∧
        c4wPostB.vm.gc.allocations
          = c4wStateB.vm.gc.allocations.set u (.upvalue (.boolean true)) ∧
        c4wPostB.vm.gc.stringPool = c4wStateB.vm.gc.stringPool)) ∧
    (c4wPostC.vm.stack = c4wStateC.vm.stack ∧
      c4wPostC.vm.globals = c4wStateC.vm.globals ∧
      c4wPostC.position = c4wStateC.position + 2 ∧
      c4wPostC.vm.gc.allocations
        = c4wStateC.vm.gc.allocations.set 1 (.upvalue (.boolean false)) ∧
      c4wPostC.vm.gc.stringPool = c4wStateC.vm.gc.stringPool) :=
  ⟨(writes_peek_and_overwrite_in_place c4wBcA c4wStateA c4wPostA 0 (.boolean true)
      (by decide) rfl rfl).1 rfl rfl,
   (writes_peek_and_overwrite_in_place c4wBcB c4wStateB c4wPostB 0 (.boolean true)
      (by decide) rfl rfl).2.1 rfl rfl,
   (writes_peek_and_overwrite_in_place c4wBcC c4wStateC c4wPostC 0 (.boolean false)
      (by decide) rfl rfl).2.2 0 9 0 [1] 1 (.boolean false) rfl rfl rfl rfl rfl rfl⟩

/-- A hit in the constant cache is an exact (bit-level) entry. -/
theorem cacheGet_mem (cache : List (Constant × Nat)) (c : Constant) (i : Nat)
    (h : cacheGet cache c = some i) : (c, i) ∈ cache := by
  induction cache with
  | nil => simp [cacheGet] at h
  | cons kv rest ih =>
    obtain ⟨k, j⟩ := kv
    unfold cacheGet at h
    split at h
    · rename_i hcond
      injection h with h
      subst h
      rw [← hcond.1]
      exact List.mem_cons_self _ _
    · exact List.mem_cons_of_mem _ (ih h)

/-- After a miss is inserted at the back, probing the same self-equal
constant again finds exactly the inserted entry. -/
theorem cacheGet_insert (cache : List (Constant × Nat)) (c : Constant) (n : Nat)
    (hmiss : cacheGet cache c = none) (hself : constantEq c c = true) :
    cacheGet (cache ++ [(c, n)]) c = some n := by
  induction cache with
  | nil => simp [cacheGet, hself]
  | cons kv rest ih =>
    obtain ⟨k, j⟩ := kv
    unfold cacheGet at hmiss
    split at hmiss
    · exact absurd hmiss (by simp)
    · rename_i hcond
      simp only [List.cons_append]
      unfold cacheGet
      rw [if_neg hcond]
      exact ih hmiss

/-- The NaN number constant. -/
def nanConstant : Constant := .number .nan

/-- Claim C6, counterexample — the round-trip law fails for a NaN number
constant: defining it twice on a fresh writer yields two different indices
and grows the pool to two entries, and the loaded constant is not equal to
the defined one under the overloaded constant equality (epsilon comparison
makes NaN unequal to itself, and the hash lookup therefore never hits the
cached entry). -/
theorem define_roundtrip_fails_for_nan :
    (BytecodeWriter.new.define nanConstant).1 = .ok 0 ∧
    ((BytecodeWriter.new.define nanConstant).2.define nanConstant).1 = .ok 1 ∧
    ((BytecodeWriter.new.define nanConstant).2.define nanConstant).2.constants.length = 2 ∧
    loadConstant (BytecodeWriter.new.define nanConstant).2.constants 0 = .ok nanConstant ∧
    constantEq nanConstant nanConstant = false ∧
    (0 : Nat) ≠ 1 :=
  ⟨rfl, rfl, rfl, rfl, rfl, by decide⟩

/-- Claim C6, amended — for every constant that is equal to itself under
the overloaded constant equality (every string, and every number other
than NaN), a successful `define` returns an index from which `load` reads
back an equal constant, and a second `define` of the same constant returns
the same index without changing the writer (in particular without growing
the pool).  For NaN numbers the law fails, as the counterexample shows.
The well-formedness hypothesis — every cache entry indexes its own key in
the pool — holds for every writer built by `define` from a fresh one. -/
theorem define_load_roundtrip_amended (w : BytecodeWriter) (c : Constant) (i : Nat)
    (w2 : BytecodeWriter)
    (wf : ∀ k j, (k, j) ∈ w.constantCache → w.constants.get? j = some k)
    (hself : constantEq c c = true)
    (hdef : w.define c = (.ok i, w2)) :
    (∃ d, loadConstant w2.constants i = .ok d ∧ constantEq d c = true) ∧
    w2.define c = (.ok i, w2) := by
  unfold BytecodeWriter.define at hdef
  split at hdef
  · rename_i j hget
    injection hdef with h1 h2
    injection h1 with h1
    subst h1
    subst h2
    have hmem := cacheGet_mem _ _ _ hget
    have hload := wf _ _ hmem
    constructor
    · refine ⟨c, ?_, hself⟩
      unfold loadConstant
      rw [hload]
    · unfold BytecodeWriter.define
      rw [hget]
  · rename_i hget
    split at hdef
    · exact absurd hdef (by simp)
    · rename_i hroom
      injection hdef with h1 h2
      injection h1 with h1
      subst h1
      subst h2
      constructor
      · refine ⟨c, ?_, hself⟩
        unfold loadConstant
        rw [List.get?_concat_length]
      · unfold BytecodeWriter.define
        rw [cacheGet_insert _ _ _ hget hself]

/-- Witness for the amended claim C6: a string constant on a fresh writer. -/
theorem define_load_roundtrip_amended_witness :
    (∃ d, loadConstant [Constant.string "pi"] 0 = .ok d ∧
      constantEq d (.string "pi") = true) ∧
    BytecodeWriter.define ⟨[.string "pi"], [(.string "pi", 0)]⟩ (.string "pi")
      = (.ok 0, ⟨[.string "pi"], [(.string "pi", 0)]⟩) :=
  define_load_roundtrip_amended ⟨[], []⟩ (.string "pi") 0
    ⟨[.string "pi"], [(.string "pi", 0)]⟩
    (fun k j h => absurd h (List.not_mem_nil _)) (by decide) rfl

/-- Witness for claim C7: the boundary behaviors at depth 256, at depth
zero, and at ordinary depths. -/
theorem stack_capacity_bounds_witness :
    (Stack.push (⟨List.replicate 256 Value.nil⟩ : Stack Value 256) .nil
      = .error "stack overflow") ∧
    (Stack.push (⟨[]⟩ : Stack Value 256) .nil = .ok ⟨[] ++ [Value.nil]⟩ ∧
      (([] : List Value) ++ [Value.nil]).length ≤ 256) ∧
    (Stack.pop (⟨[]⟩ : Stack Value 256) = .error "stack underflow" ∧
      Stack.top (⟨[]⟩ : Stack Value 256) = .error "stack underflow, cannot peek" ∧
      Stack.peek (⟨[]⟩ : Stack Value 256) 5 = .error "stack underflow, cannot peek") ∧
    (∃ t, Stack.pop (⟨[Value.boolean true]⟩ : Stack Value 256)
        = .ok (t, ⟨[Value.boolean true].dropLast⟩) ∧
      [Value.boolean true].dropLast.length = [Value.boolean true].length - 1) :=
  ⟨(stack_capacity_bounds ⟨List.replicate 256 Value.nil⟩ .nil 0).1
      (by rw [List.length_replicate]),
   (stack_capacity_bounds ⟨[]⟩ .nil 0).2.1 (by simp),
   (stack_capacity_bounds ⟨[]⟩ .nil 5).2.2.1 rfl,
   (stack_capacity_bounds ⟨[Value.boolean true]⟩ .nil 0).2.2.2 (by simp)⟩

/-- Claim C9 — the overloaded value equality compares two numbers as equal
exactly when the absolute difference is below machine epsilon, which makes
NaN unequal to NaN and positive zero equal to negative zero; it compares
strings by referent content and function pointers by referent position and
arity; and every pair of values with different tags is unequal. -/
theorem value_equality_characterization (gc : GarbageCollector)
    (a b : F64) (r1 r2 f1 f2 : Nat) (s1 s2 : String) (p1 a1 p2 a2 : Nat) (v w : Value) :
    (valueEq gc (.number a) (.number b) = F64.flt (F64.fabs (F64.fsub a b)) EPSILON) ∧
    (valueEq gc (.number .nan) (.number .nan) = false) ∧
    (valueEq gc (.number (.finite (Frac.ofInt 0))) (.number .negZero) = true) ∧
    (gc.stringAt r1 = some s1 → gc.stringAt r2 = some s2 →
      (valueEq gc (.string r1) (.string r2) = true ↔ s1 = s2)) ∧
    (gc.functionPointerAt f1 = some (p1, a1) → gc.functionPointerAt f2 = some (p2, a2) →
      (valueEq gc (.functionPointer f1) (.functionPointer f2) = true ↔ p1 = p2 ∧ a1 = a2)) ∧
    (v.tag ≠ w.tag → valueEq gc v w = false) := by
  refine ⟨rfl, rfl, rfl, ?_, ?_, ?_⟩
  · intro h1 h2
    by_cases hr : r1 = r2
    · subst hr
      rw [h1] at h2
      injection h2 with h2
      subst h2
      simp [valueEq]
    · simp only [valueEq, if_neg hr, h1, h2]
      simp
  · intro h1 h2
    by_cases hr : f1 = f2
    · subst hr
      rw [h1] at h2
      injection h2 with h2
      injection h2 with h2 h3
      subst h2
      subst h3
      simp [valueEq]
    · simp only [valueEq, if_neg hr, h1, h2]
      simp
  · intro htag
    cases v <;> cases w <;> first
      | exact absurd rfl htag
      | rfl

/-- A concrete heap for the value-equality witness: two distinct interned
strings and two distinct allocations of the same function pointer. -/
def c9wGc : GarbageCollector :=
  ⟨[.string "a", .string "b", .functionPointer 3 2, .functionPointer 3 2],
    [("a", 0), ("b", 1)]⟩

/-- Witness for claim C9 at concrete inputs. -/
theorem value_equality_characterization_witness :
    (valueEq c9wGc (.number (.finite (Frac.ofInt 3))) (.number (.finite (Frac.ofInt 3)))
      = F64.flt (F64.fabs (F64.fsub (.finite (Frac.ofInt 3)) (.finite (Frac.ofInt 3)))) EPSILON) ∧
    (valueEq c9wGc (.number .nan) (.number .nan) = false) ∧
    (valueEq c9wGc (.number (.finite (Frac.ofInt 0))) (.number .negZero) = true) ∧
    (valueEq c9wGc (.string 0) (.string 1) = true ↔ "a" = "b") ∧
    (valueEq c9wGc (.functionPointer 2) (.functionPointer 3) = true ↔ 3 = 3 ∧ 2 = 2) ∧
    (valueEq c9wGc .nil (.boolean true) = false) := by
  obtain ⟨h1, h2, h3, h4, h5, h6⟩ :=
    value_equality_characterization c9wGc (.finite (Frac.ofInt 3)) (.finite (Frac.ofInt 3))
      0 1 2 3 "a" "b" 3 2 3 2 .nil (.boolean true)
  exact ⟨h1, h2, h3, h4 rfl rfl, h5 rfl rfl, h6 (by decide)⟩

/-- A successful byte fetch advances the cursor by one and yields a byte. -/
theorem fetchU8_ok (bc : Bytecode) (s sA : VMState) (b : Nat)
    (h : fetchU8 bc s = .ok (b, sA)) :
    sA = { s with position := s.position + 1 } ∧ b < 256 := by
  unfold fetchU8 at h
  split at h
  · exact absurd h (by simp)
  · rename_i b0 hb0
    injection h with h
    injection h with h1 h2
    subst h2
    subst h1
    exact ⟨rfl, Nat.mod_lt _ (by omega)⟩

/-- A successful sixteen-bit fetch advances the cursor by two. -/
theorem fetchU16_ok (bc : Bytecode) (s sA : VMState) (b : Nat)
    (h : fetchU16 bc s = .ok (b, sA)) :
    sA = { s with position := s.position + 2 } := by
  unfold fetchU16 at h
  split at h
  · exact absurd h (by simp)
  · rename_i b0 sB hb0
    split at h
    · exact absurd h (by simp)
    · rename_i b1 sC hb1
      injection h with h
      injection h with h1 h2
      subst h2
      obtain ⟨hB, -⟩ := fetchU8_ok bc s sB b0 hb0
      subst hB
      obtain ⟨hC, -⟩ := fetchU8_ok bc _ sC b1 hb1
      subst hC
      rfl

/-- A program that pushes 255 values, calls a callee at byte 259 with
arity zero (so the callee frame base is 255), and lets the callee push
one value and return. -/
def wrapProg : Bytecode :=
  { code := List.replicate 255 2 ++ [25, 3, 1, 0, 2, 27], constants := [] }

/-- The reachable state just before the callee `Return` of `wrapProg`:
the frame base is 255, the stack is full, and the callstack is not
empty. -/
def wrapPre : VMState :=
  { vm := { globals := List.replicate 256 .nil
            stack := ⟨List.replicate 256 (.boolean true)⟩
            gc := ⟨[], []⟩
            frame := 255, closure := none
            callstack := [{ position := 259, frame := 0, closure := none }] }
    position := 260, output := [] }

/-- The state after that `Return`: the stack is empty, not of length 256. -/
def wrapPost : VMState :=
  { vm := { globals := List.replicate 256 .nil
            stack := ⟨[]⟩
            gc := ⟨[], []⟩
            frame := 0, closure := none, callstack := [] }
    position := 259, output := [] }

set_option maxRecDepth 8000 in
/-- Claim C3, counterexample — at the reachable corner where the callee
frame base is 255, the `Return` of `wrapProg` succeeds with a non-empty
callstack but leaves the stack empty instead of popping only down to
length `frame + 1 = 256`: the source computes `(self.frame + 1) as usize`
in eight-bit arithmetic, which wraps to zero (release builds; debug builds
abort there, so the claimed restoration never happens either way). -/
theorem return_wraps_at_frame_255 :
    stepN wrapProg 257 initialState = .ok wrapPre ∧
    wrapPre.vm.frame = 255 ∧
    wrapPre.vm.callstack = [{ position := 259, frame := 0, closure := none }] ∧
    wrapPre.vm.stack.elements.length = 256 ∧
    step wrapProg wrapPre = .ok (.next wrapPost) ∧
    wrapPost.vm.stack.elements.length = 0 ∧
    wrapPost.vm.stack.elements.length ≠ wrapPre.vm.frame + 1 :=
  ⟨rfl, rfl, rfl, rfl, rfl, rfl, by decide⟩

/-- Claim C3, amended — a `Call` pushes a frame recording exactly the
previous frame base, the previous current closure, and the position of
the byte following its two operands reduced modulo 65536 (the source
truncates the cursor to a sixteen-bit `CallPosition` when saving it); and
provided the callee frame base satisfies `frame + 1 < 256` — at
`frame = 255` the eight-bit computation of `frame + 1` wraps and the
`Return` empties the stack instead, as the counterexample shows — the
`Return` that pops this very frame copies the callee top of stack into
slot `frame`, truncates the stack to length `frame + 1`, restores the
frame base and the closure to their values from immediately before the
`Call`, and resumes at the saved position. -/
theorem call_return_round_trip_amended (bc : Bytecode) (s s1 s2 s3 : VMState) (t : Value)
    (hcall : bc.code.get? s.position = some 25)
    (hstep1 : step bc s = .ok (.next s1))
    (hret : bc.code.get? s2.position = some 27)
    (hcs : s2.vm.callstack = s1.vm.callstack)
    (htop : s2.vm.stack.top = .ok t)
    (hframe : s2.vm.frame < s2.vm.stack.elements.length)
    (hfr : s2.vm.frame + 1 < 256)
    (hstep2 : step bc s2 = .ok (.next s3)) :
    s1.vm.callstack
      = { position := (s.position + 4) % 65536, frame := s.vm.frame
          closure := s.vm.closure } :: s.vm.callstack ∧
    s3.vm.frame = s.vm.frame ∧
    s3.vm.closure = s.vm.closure ∧
    s3.position = (s.position + 4) % 65536 ∧
    s3.vm.callstack = s.vm.callstack ∧
    s3.vm.stack.elements
      = (s2.vm.stack.elements.set s2.vm.frame t).take (s2.vm.frame + 1) ∧
    s3.vm.stack.elements.length = s2.vm.frame + 1 ∧
    s3.vm.stack.elements.get? s2.vm.frame = some t := by
  rw [step_eq_exec bc s 25 .call hcall (by omega) rfl] at hstep1
  simp only [execOp] at hstep1
  split at hstep1
  · exact absurd hstep1 (by simp)
  · rename_i pos sA hfa
    split at hstep1
    · exact absurd hstep1 (by simp)
    · rename_i off sB hfb
      injection hstep1 with hstep1
      injection hstep1 with hstep1
      subst hstep1
      have hA := fetchU16_ok bc _ sA pos hfa
      subst hA
      obtain ⟨hB, -⟩ := fetchU8_ok bc _ sB off hfb
      subst hB
      have hcs1 : s2.vm.callstack
          = { position := (s.position + 4) % 65536, frame := s.vm.frame
              closure := s.vm.closure } :: s.vm.callstack := hcs
      refine ⟨rfl, ?_⟩
      rw [step_eq_exec bc s2 27 .ret hret (by omega) rfl] at hstep2
      simp only [execOp] at hstep2
      simp only [hcs1] at hstep2
      simp only [htop] at hstep2
      split at hstep2
      · exact absurd hstep2 (by simp)
      · rename_i st hset
        injection hstep2 with hstep2
        injection hstep2 with hstep2
        subst hstep2
        unfold Stack.setAt at hset
        rw [if_pos hframe] at hset
        injection hset with hset
        subst hset
        refine ⟨rfl, rfl, rfl, rfl, ?_, ?_, ?_⟩
        · simp only [Nat.mod_eq_of_lt hfr]
        · simp only [Nat.mod_eq_of_lt hfr, List.length_take, List.length_set]
          omega
        · simp only [Nat.mod_eq_of_lt hfr, List.get?_eq_getElem?, List.getElem?_take,
            if_pos (Nat.lt_succ_self _)]
          exact List.getElem?_set_eq_of_lt t hframe

/-- A concrete program: `Call 5 0` at byte 0, the resume instruction at
byte 4, and the callee `True; Return` at bytes 5 and 6. -/
def c3Prog : Bytecode :=
  { code := [25, 5, 0, 0, 18, 2, 27], constants := [] }

/-- The state after the `Call`. -/
def c3S1 : VMState :=
  { vm := { globals := List.replicate 256 .nil, stack := ⟨[]⟩, gc := ⟨[], []⟩
            frame := 0, closure := none
            callstack := [{ position := 4, frame := 0, closure := none }] }
    position := 5, output := [] }

/-- The state after the callee pushed its result. -/
def c3S2 : VMState :=
  { vm := { globals := List.replicate 256 .nil, stack := ⟨[.boolean true]⟩, gc := ⟨[], []⟩
            frame := 0, closure := none
            callstack := [{ position := 4, frame := 0, closure := none }] }
    position := 6, output := [] }

/-- The state after the `Return`. -/
def c3S3 : VMState :=
  { vm := { globals := List.replicate 256 .nil, stack := ⟨[.boolean true]⟩, gc := ⟨[], []⟩
            frame := 0, closure := none, callstack := [] }
    position := 4, output := [] }

/-- Witness for the amended claim C3 on the concrete call and return. -/
theorem call_return_round_trip_amended_witness :
    c3S1.vm.callstack
      = { position := 4, frame := 0, closure := none } :: ([] : List CallFrame) ∧
    c3S3.vm.frame = 0 ∧
    c3S3.vm.closure = none ∧
    c3S3.position = 4 ∧
    c3S3.vm.callstack = ([] : List CallFrame) ∧
    c3S3.vm.stack.elements
      = (c3S2.vm.stack.elements.set 0 (.boolean true)).take 1 ∧
    c3S3.vm.stack.elements.length = 1 ∧
    c3S3.vm.stack.elements.get? 0 = some (.boolean true) :=
  call_return_round_trip_amended c3Prog initialState c3S1 c3S2 c3S3 (.boolean true)
    rfl rfl rfl rfl rfl (by decide) (by decide) rfl

/-- Division of any double by a zero of either sign yields an infinity or
a NaN, never a finite value. -/
theorem fdiv_zero_isInfOrNan (a z : F64) (hz : z.isZero = true) :
    (F64.fdiv a z).isInfOrNan = true := by
  cases a <;> cases z <;>
    simp_all [F64.fdiv, F64.isZero, F64.isInfOrNan] <;>
    split <;> simp_all [F64.isInfOrNan]

/-- A successful peek bounds the stack length from below. -/
theorem peek_ok_length {α : Type} {N : Nat} (s : Stack α N) (n : Nat) (v : α)
    (h : s.peek n = .ok v) : n < s.elements.length := by
  unfold Stack.peek at h
  split at h
  · simp at h
  · omega

/-- A nonempty stack pops its last element. -/
theorem pop_nonempty {α : Type} {N : Nat} (s : Stack α N)
    (h : 0 < s.elements.length) :
    ∃ t, s.pop = .ok (t, ⟨s.elements.dropLast⟩) := by
  have hne : s.elements ≠ [] := by
    intro hnil
    rw [hnil] at h
    exact absurd h (by simp)
  obtain ⟨t, ht⟩ := Option.isSome_iff_exists.mp (List.getLast?_isSome.mpr hne)
  refine ⟨t, ?_⟩
  unfold Stack.pop
  rw [ht]

/-- Claim C8 — with both operands on the stack and transparently unboxed,
the `Divide` opcode succeeds exactly when both unboxed operands are
numbers; in particular dividing a number by a numeric zero does not fault
and pushes the IEEE-754 quotient, which is an infinity or a NaN. -/
theorem divide_faults_iff_nonnumber (bc : Bytecode) (s : VMState)
    (rv0 lv0 rv lv : Value)
    (hb : bc.code.get? s.position = some 10)
    (hp0 : s.vm.stack.peek 0 = .ok rv0)
    (hp1 : s.vm.stack.peek 1 = .ok lv0)
    (hur : unboxValue s.vm.gc rv0 = .ok rv)
    (hul : unboxValue s.vm.gc lv0 = .ok lv)
    (hlen : s.vm.stack.elements.length ≤ 256) :
    ((∃ s2, step bc s = .ok (.next s2)) ↔
      (lv.isNumber = true ∧ rv.isNumber = true)) ∧
    (∀ a z, lv = .number a → rv = .number z → z.isZero = true →
      step bc s = .ok (.next { s with
        vm.stack := ⟨s.vm.stack.elements.dropLast.dropLast
          ++ [.number (F64.fdiv a z)]⟩
        position := s.position + 1 }) ∧
      (F64.fdiv a z).isInfOrNan = true) := by
  have hlen1 : 1 < s.vm.stack.elements.length := peek_ok_length _ 1 _ hp1
  obtain ⟨t1, hpop1⟩ := pop_nonempty s.vm.stack (by omega)
  obtain ⟨t2, hpop2⟩ :=
    pop_nonempty (⟨s.vm.stack.elements.dropLast⟩ : Stack Value LOCALS_CAPACITY)
      (by simp only [List.length_dropLast]; omega)
  have hpushlen : ¬ s.vm.stack.elements.dropLast.dropLast.length ≥ LOCALS_CAPACITY := by
    simp only [List.length_dropLast, LOCALS_CAPACITY]
    omega
  have hrun : ∀ a z : F64, lv = .number a → rv = .number z →
      step bc s = .ok (.next { s with
        vm.stack := ⟨s.vm.stack.elements.dropLast.dropLast
          ++ [.number (F64.fdiv a z)]⟩
        position := s.position + 1 }) := by
    intro a z ha hz
    subst ha
    subst hz
    rw [step_eq_exec bc s 10 .divide hb (by omega) rfl]
    simp only [execOp]
    unfold execArithmetic
    simp only [hp0, hp1, hur, hul, hpop1, hpop2]
    unfold pushNext Stack.push
    rw [if_neg hpushlen]
  refine ⟨⟨?_, ?_⟩, ?_⟩
  · rintro ⟨s2, hstep⟩
    rw [step_eq_exec bc s 10 .divide hb (by omega) rfl] at hstep
    simp only [execOp] at hstep
    unfold execArithmetic at hstep
    simp only [hp0, hp1, hur, hul] at hstep
    cases lv <;> cases rv <;> simp_all [Value.isNumber]
  · rintro ⟨hln, hrn⟩
    cases lv <;> simp [Value.isNumber] at hln
    cases rv <;> simp [Value.isNumber] at hrn
    rename_i a z
    exact ⟨_, hrun a z rfl rfl⟩
  · intro a z ha hz hzero
    exact ⟨hrun a z ha hz, fdiv_zero_isInfOrNan a z hzero⟩

/-- Concrete program and state for the divide-by-zero witness. -/
def c8wBc : Bytecode := { code := [10], constants := [] }

/-- A stack holding the number one over the number zero. -/
def c8wState : VMState :=
  { vm := { globals := [], stack := ⟨[.number (.finite (Frac.ofInt 1)),
              .number (.finite (Frac.ofInt 0))]⟩, gc := ⟨[], []⟩
            frame := 0, closure := none, callstack := [] }
    position := 0, output := [] }

/-- Witness for claim C8: one divided by zero steps successfully and
pushes an infinity. -/
theorem divide_faults_iff_nonnumber_witness :
    ((∃ s2, step c8wBc c8wState = .ok (.next s2)) ↔
      ((Value.number (.finite (Frac.ofInt 1))).isNumber = true ∧
        (Value.number (.finite (Frac.ofInt 0))).isNumber = true)) ∧
    (step c8wBc c8wState = .ok (.next { c8wState with
        vm.stack := ⟨c8wState.vm.stack.elements.dropLast.dropLast
          ++ [.number (F64.fdiv (.finite (Frac.ofInt 1)) (.finite (Frac.ofInt 0)))]⟩
        position := c8wState.position + 1 }) ∧
      (F64.fdiv (.finite (Frac.ofInt 1)) (.finite (Frac.ofInt 0))).isInfOrNan = true) := by
  obtain ⟨h1, h2⟩ :=
    divide_faults_iff_nonnumber c8wBc c8wState
      (.number (.finite (Frac.ofInt 0))) (.number (.finite (Frac.ofInt 1)))
      (.number (.finite (Frac.ofInt 0))) (.number (.finite (Frac.ofInt 1)))
      rfl rfl rfl rfl rfl (by decide)
  exact ⟨h1, h2 (.finite (Frac.ofInt 1)) (.finite (Frac.ofInt 0)) rfl rfl rfl⟩

/-- The state carried by either outcome of a step. -/
def stateOf : StepOut → VMState
  | .next s => s
  | .done s => s

/-- The string-interning invariant of the collector: the pool maps every
interned content to a string allocation with that content, and every
string allocation in the heap is recorded in the pool under its own
content.  Together these make the string allocation for a given content
unique. -/
def GCInv (gc : GarbageCollector) : Prop :=
  (∀ str i, poolLookup gc.stringPool str = some i → gc.stringAt i = some str) ∧
  (∀ r str, gc.stringAt r = some str → poolLookup gc.stringPool str = some r)

/-- Interning uniqueness: under the invariant, two string allocations with
the same content are the same allocation. -/
theorem gcinv_unique (gc : GarbageCollector) (h : GCInv gc) (r1 r2 : Nat)
    (str : String) (h1 : gc.stringAt r1 = some str)
    (h2 : gc.stringAt r2 = some str) : r1 = r2 := by
  have e1 := h.2 r1 str h1
  have e2 := h.2 r2 str h2
  rw [e1] at e2
  injection e2

/-- A string lookup success bounds the reference by the heap length. -/
theorem stringAt_lt_length (gc : GarbageCollector) (r : Nat) (str : String)
    (h : gc.stringAt r = some str) : r < gc.allocations.length := by
  unfold GarbageCollector.stringAt at h
  split at h
  · rename_i hjj
    by_contra hge
    rw [List.get?_eq_none.mpr (by omega)] at hjj
    exact absurd hjj (by simp)
  · exact absurd h (by simp)

/-- The string content seen through a reference is read off the heap. -/
theorem stringAt_of_get (gc : GarbageCollector) (r : Nat) (str : String)
    (h : gc.allocations.get? r = some (.string str)) :
    gc.stringAt r = some str := by
  unfold GarbageCollector.stringAt
  rw [h]

/-- Conversely, a string lookup success exposes a string allocation. -/
theorem get_of_stringAt (gc : GarbageCollector) (r : Nat) (str : String)
    (h : gc.stringAt r = some str) :
    gc.allocations.get? r = some (.string str) := by
  unfold GarbageCollector.stringAt at h
  split at h
  · rename_i hjj
    injection h with h
    subst h
    exact hjj
  · exact absurd h (by simp)

/-- An existing pool hit survives appending entries to the pool. -/
theorem poolLookup_append_of_some (P Q : List (String × Nat)) (t : String)
    (i : Nat) (h : poolLookup P t = some i) : poolLookup (P ++ Q) t = some i := by
  induction P with
  | nil => simp [poolLookup] at h
  | cons kv rest ih =>
    obtain ⟨k, j⟩ := kv
    unfold poolLookup at h
    simp only [List.cons_append]
    unfold poolLookup
    split at h
    · rename_i hk
      rw [if_pos hk]
      exact h
    · rename_i hk
      rw [if_neg hk]
      exact ih h

/-- A pool miss turns an appended entry into the lookup result. -/
theorem poolLookup_append_of_none (P : List (String × Nat)) (t : String)
    (h : poolLookup P t = none) (str : String) (n : Nat) :
    poolLookup (P ++ [(str, n)]) t = if str = t then some n else none := by
  induction P with
  | nil => simp [poolLookup]
  | cons kv rest ih =>
    obtain ⟨k, j⟩ := kv
    unfold poolLookup at h
    simp only [List.cons_append]
    unfold poolLookup
    split at h
    · exact absurd h (by simp)
    · rename_i hk
      rw [if_neg hk]
      exact ih h

/-- String allocation preserves the interning invariant. -/
theorem gcinv_allocateString (gc : GarbageCollector) (str : String)
    (h : GCInv gc) : GCInv (gc.allocateString str).2 := by
  cases hpl : poolLookup gc.stringPool str with
  | some i =>
    have hsame : (gc.allocateString str).2 = gc := by
      unfold GarbageCollector.allocateString
      rw [hpl]
    rw [hsame]
    exact h
  | none =>
    have hnew : (gc.allocateString str).2
        = ⟨gc.allocations ++ [.string str],
            gc.stringPool ++ [(str, gc.allocations.length)]⟩ := by
      unfold GarbageCollector.allocateString
      rw [hpl]
    rw [hnew]
    constructor
    · intro t i hti
      cases hq : poolLookup gc.stringPool t with
      | some j =>
        rw [poolLookup_append_of_some _ _ _ _ hq] at hti
        injection hti with hti
        subst hti
        have hold := h.1 t j hq
        have hlt := stringAt_lt_length gc j t hold
        exact stringAt_of_get _ _ _
          (by rw [List.get?_append hlt]; exact get_of_stringAt _ _ _ hold)
      | none =>
        rw [poolLookup_append_of_none _ _ hq] at hti
        split at hti
        · rename_i hst
          subst hst
          injection hti with hti
          subst hti
          exact stringAt_of_get _ _ _ (by rw [List.get?_concat_length])
        · exact absurd hti (by simp)
    · intro r t hrt
      have hget := get_of_stringAt _ _ _ hrt
      rcases Nat.lt_trichotomy r gc.allocations.length with hlt | heq | hgt
      · rw [List.get?_append hlt] at hget
        exact poolLookup_append_of_some _ _ _ _
          (h.2 r t (stringAt_of_get _ _ _ hget))
      · subst heq
        rw [List.get?_concat_length] at hget
        injection hget with hget
        injection hget with hget
        subst hget
        rw [poolLookup_append_of_none _ _ hpl, if_pos rfl]
      · rw [List.get?_eq_none.mpr (by simp; omega)] at hget
        exact absurd hget (by simp)

/-- Allocation of a non-string object preserves the interning invariant. -/
theorem gcinv_allocateObj (gc : GarbageCollector) (o : Obj)
    (hno : ∀ str, o ≠ .string str) (h : GCInv gc) :
    GCInv (gc.allocateObj o).2 := by
  have hnew : (gc.allocateObj o).2 = ⟨gc.allocations ++ [o], gc.stringPool⟩ := rfl
  rw [hnew]
  constructor
  · intro t i hti
    have hold := h.1 t i hti
    have hlt := stringAt_lt_length gc i t hold
    exact stringAt_of_get _ _ _
      (by rw [List.get?_append hlt]; exact get_of_stringAt _ _ _ hold)
  · intro r t hrt
    have hget := get_of_stringAt _ _ _ hrt
    rcases Nat.lt_trichotomy r gc.allocations.length with hlt | heq | hgt
    · rw [List.get?_append hlt] at hget
      exact h.2 r t (stringAt_of_get _ _ _ hget)
    · subst heq
      rw [List.get?_concat_length] at hget
      injection hget with hget
      exact absurd hget (hno t)
    · rw [List.get?_eq_none.mpr (by simp; omega)] at hget
      exact absurd hget (by simp)

/-- Overwriting a non-string allocation with a non-string object preserves
the interning invariant. -/
theorem gcinv_set_nonstring (gc : GarbageCollector) (r : Nat) (o old : Obj)
    (hold : gc.allocations.get? r = some old)
    (holdns : ∀ str, old ≠ Obj.string str)
    (hno : ∀ str, o ≠ Obj.string str) (h : GCInv gc) :
    GCInv ⟨gc.allocations.set r o, gc.stringPool⟩ := by
  have hrlen : r < gc.allocations.length := by
    by_contra hge
    rw [List.get?_eq_none.mpr (by omega)] at hold
    exact absurd hold (by simp)
  constructor
  · intro t i hti
    have holdi := h.1 t i hti
    have hget := get_of_stringAt _ _ _ holdi
    have hir : i ≠ r := by
      intro hir
      subst hir
      rw [hold] at hget
      injection hget with hget
      exact holdns t hget
    exact stringAt_of_get _ _ _
      (by rw [List.get?_eq_getElem?, List.getElem?_set_ne (by omega),
            ← List.get?_eq_getElem?]; exact hget)
  · intro x t hxt
    have hget := get_of_stringAt _ _ _ hxt
    by_cases hxr : x = r
    · subst hxr
      rw [List.get?_eq_getElem?, List.getElem?_set_eq_of_lt _ hrlen] at hget
      injection hget with hget
      exact absurd hget (hno t)
    · rw [List.get?_eq_getElem?, List.getElem?_set_ne (by omega),
        ← List.get?_eq_getElem?] at hget
      exact h.2 x t (stringAt_of_get _ _ _ hget)

/-- A successful cell write overwrites an upvalue allocation in place. -/
theorem writeCell_ok (gc : GarbageCollector) (r : Nat) (v : Value)
    (gc2 : GarbageCollector) (h : gc.writeCell r v = .ok gc2) :
    ∃ old, gc.allocations.get? r = some (.upvalue old) ∧
      gc2 = ⟨gc.allocations.set r (.upvalue v), gc.stringPool⟩ := by
  unfold GarbageCollector.writeCell at h
  split at h
  · rename_i old hget
    injection h with h
    exact ⟨old, hget, h.symm⟩
  · exact absurd h (by simp)

/-- A successful cell write preserves the interning invariant. -/
theorem gcinv_writeCell (gc : GarbageCollector) (r : Nat) (v : Value)
    (gc2 : GarbageCollector) (h : gc.writeCell r v = .ok gc2)
    (hinv : GCInv gc) : GCInv gc2 := by
  obtain ⟨old, hget, h2⟩ := writeCell_ok gc r v gc2 h
  subst h2
  exact gcinv_set_nonstring gc r _ _ hget (by intro str hn; cases hn)
    (by intro str hn; cases hn) hinv

/-- A successful upvalue append overwrites a closure allocation in place. -/
theorem pushUpvalue_ok (gc : GarbageCollector) (r u : Nat)
    (gc2 : GarbageCollector) (h : gc.pushUpvalue r u = .ok gc2) :
    ∃ p a us, gc.allocations.get? r = some (.closure p a us) ∧
      gc2 = ⟨gc.allocations.set r (.closure p a (us ++ [u])), gc.stringPool⟩ := by
  unfold GarbageCollector.pushUpvalue at h
  split at h
  · rename_i p a us hget
    injection h with h
    exact ⟨p, a, us, hget, h.symm⟩
  · exact absurd h (by simp)

/-- A successful upvalue append preserves the interning invariant. -/
theorem gcinv_pushUpvalue (gc : GarbageCollector) (r u : Nat)
    (gc2 : GarbageCollector) (h : gc.pushUpvalue r u = .ok gc2)
    (hinv : GCInv gc) : GCInv gc2 := by
  obtain ⟨p, a, us, hget, h2⟩ := pushUpvalue_ok gc r u gc2 h
  subst h2
  exact gcinv_set_nonstring gc r _ _ hget (by intro str hn; cases hn)
    (by intro str hn; cases hn) hinv

/-- A successful push keeps the collector unchanged. -/
theorem pushNext_gc (s : VMState) (v : Value) (out : StepOut)
    (h : pushNext s v = .ok out) : (stateOf out).vm.gc = s.vm.gc := by
  obtain ⟨-, h2⟩ := pushNext_ok s v out h
  subst h2
  rfl

/-- A successful signed sixteen-bit fetch advances the cursor by two. -/
theorem fetchI16_ok (bc : Bytecode) (s sA : VMState) (v : Int)
    (h : fetchI16 bc s = .ok (v, sA)) :
    sA = { s with position := s.position + 2 } := by
  unfold fetchI16 at h
  split at h
  · exact absurd h (by simp)
  · rename_i v0 sB hf
    injection h with h
    injection h with h1 h2
    subst h2
    exact fetchU16_ok _ _ _ _ hf

/-- A successful relative jump only moves the cursor. -/
theorem jumpCursor_ok (s : VMState) (o : Int) (s2 : VMState)
    (h : jumpCursor s o = .ok s2) :
    s2 = { s with position := ((s.position : Int) + o).toNat } := by
  unfold jumpCursor at h
  split at h
  · exact absurd h (by simp)
  · injection h with h
    exact h.symm

/-- Every successful interpreter step preserves the interning invariant:
the collector is only changed through interned string allocation,
non-string allocation, or in-place overwriting of upvalue cells and
closure upvalue lists. -/
theorem gcinv_step (bc : Bytecode) (s : VMState) (out : StepOut)
    (h : GCInv s.vm.gc) (hstep : step bc s = .ok out) :
    GCInv (stateOf out).vm.gc := by
  unfold step at hstep
  split at hstep
  · exact absurd hstep (by simp)
  · rename_i b s1 hfetch
    split at hstep
    · exact absurd hstep (by simp)
    · rename_i op hop
      obtain ⟨hs1, -⟩ := fetchU8_ok bc s s1 b hfetch
      subst hs1
      cases op <;>
        (simp only [execOp] at hstep
         try unfold execArithmetic at hstep
         iterate 9 (all_goals (try split at hstep))
         all_goals try exact Except.noConfusion hstep
         all_goals
           (repeat (first
             | (obtain ⟨hA, -⟩ := fetchU8_ok _ _ _ _ (by assumption); subst hA)
             | (have hA := fetchU16_ok _ _ _ _ (by assumption); subst hA)
             | (have hA := fetchI16_ok _ _ _ _ (by assumption); subst hA)
             | (have hA := jumpCursor_ok _ _ _ (by assumption); subst hA)))
         all_goals
           (first
             | (rw [pushNext_gc _ _ _ hstep]
                first
                  | exact h
                  | exact gcinv_allocateString _ _ h
                  | exact gcinv_allocateObj _ _ (fun q hq => by cases hq) h)
             | (cases hstep
                first
                  | exact h
                  | exact gcinv_writeCell _ _ _ _ (by assumption) h
                  | exact gcinv_pushUpvalue _ _ _ _ (by assumption) h
                  | exact gcinv_pushUpvalue _ _ _ _ (by assumption)
                      (gcinv_allocateObj _ _ (fun q hq => by cases hq) h))))

/-- The fresh collector satisfies the interning invariant. -/
theorem gcinv_initial : GCInv initialState.vm.gc :=
  ⟨fun _ _ hl => Option.noConfusion hl, fun _ _ hs => Option.noConfusion hs⟩

/-- Iterated stepping preserves the interning invariant. -/
theorem gcinv_stepN (bc : Bytecode) (n : Nat) (s0 s2 : VMState)
    (h0 : GCInv s0.vm.gc) (hrun : stepN bc n s0 = .ok s2) :
    GCInv s2.vm.gc := by
  induction n generalizing s0 with
  | zero =>
    unfold stepN at hrun
    injection hrun with hrun
    subst hrun
    exact h0
  | succ n ih =>
    unfold stepN at hrun
    split at hrun
    · exact absurd hrun (by simp)
    · exact absurd hrun (by simp)
    · rename_i s1 hone
      exact ih s1 (gcinv_step bc s0 _ h0 hone) hrun

/-- Claim C5 — string interning: in every state reached by executing any
bytecode on a fresh machine, any two string references whose heap contents
are byte-equal are the same reference, i.e. every string value produced
during the run (loaded by `Constant` or created by the string branch of
`Add`) with a given content aliases the single interned allocation. -/
theorem interned_strings_alias (bc : Bytecode) (n : Nat) (s2 : VMState)
    (r1 r2 : Nat) (str : String)
    (hrun : stepN bc n initialState = .ok s2)
    (h1 : s2.vm.gc.stringAt r1 = some str)
    (h2 : s2.vm.gc.stringAt r2 = some str) :
    r1 = r2 :=
  gcinv_unique _ (gcinv_stepN bc n initialState s2 gcinv_initial hrun)
    r1 r2 str h1 h2

/-- A program loading the same string constant twice. -/
def c5wProg : Bytecode :=
  { code := [0, 0, 0, 0, 0, 0], constants := [.string "hi"] }

/-- The state after both loads: both stack values alias allocation 0. -/
def c5wState : VMState :=
  { vm := { globals := List.replicate 256 .nil
            stack := ⟨[.string 0, .string 0]⟩
            gc := ⟨[.string "hi"], [("hi", 0)]⟩
            frame := 0, closure := none, callstack := [] }
    position := 6, output := [] }

/-- Witness for claim C5 on the concrete double-load program. -/
theorem interned_strings_alias_witness :
    stepN c5wProg 2 initialState = .ok c5wState ∧
    c5wState.vm.gc.stringAt 0 = some "hi" ∧
    c5wState.vm.stack.elements = [.string 0, .string 0] ∧
    (0 : Nat) = 0 :=
  ⟨rfl, rfl, rfl,
    interned_strings_alias c5wProg 2 c5wState 0 0 "hi" rfl rfl rfl⟩

end MusselVM
